import Mathlib

/-!
# Black Magic Probe scanner: `find_bmp` (bmp-scan.c)

A shallow embedding of the two `find_bmp` functions of `bmp-scan.c`: the
registry scan compiled under Windows and the sysfs scan compiled elsewhere.

Conventions of the embedding.

* A C string is the list of its characters before the terminator (`CStr`).
  The operating system hands strings over in that form; the only place where
  the code itself can write a terminator into the middle of a string is the
  interface patch, and there the string is cut explicitly (`patchAt`).
* The operating system is a record of query functions (`Registry`, `SysFs`):
  one field per API the code calls, keyed by the path the code passes.
* The work buffers (`regpath`, `subkey`, `portname`, `basename`, `value`,
  `path`, `str`) are taken to be large enough for the strings of the fixture.
  The output buffer `name` has the explicit capacity `namelen`.
* `find_bmp` returns `none` when an `assert` fails (or the code writes in
  front of a buffer) and `some (ret, name)` when it returns `ret` and leaves
  the string `name` in the output buffer.
-/

set_option autoImplicit false

namespace BmpScan

/-- A C string: the characters before the terminator. -/
abbrev CStr := List Char

/-- The string terminator. -/
def NUL : Char := Char.ofNat 0

/-- The backslash character. -/
def BSLASH : Char := Char.ofNat 92

/-- The string after the assignment `s[p] = c`: cut at `p` when `c` is the terminator. -/
def patchAt (s : CStr) (p : Nat) (c : Char) : CStr := if c = NUL then s.take p else s.set p c

/-- Modelled from the spec: `BMP_IF_GDB` of the absent header `bmp-scan.h`; the GDB server
is "interface 0 by convention" (and the sysfs scan asserts the digit `0` in its place). -/
def BMP_IF_GDB : Int := 0

/-- The remaining constants of the absent header `bmp-scan.h`, taken as parameters. -/
structure Header where
  BMP_VID : Int
  BMP_PID : Int
  BMP_IF_UART : Int

/-- The conversion `(TCHAR)(v)` / `(char)(v)` of an `int` to a character. -/
def toChar (v : Int) : Char := Char.ofNat (v % 256).toNat

/-- The value of a (signed) `char` promoted to `int`. -/
def charInt (c : Char) : Int := if c.toNat < 128 then (c.toNat : Int) else (c.toNat : Int) - 256

/-- Result of `strncpy(name, src, namelen); name[namelen - 1] = 0` and of
`strlcpy(name, src, namelen)`, for `namelen > 0`. -/
def copyOut (src : CStr) (namelen : Nat) : CStr := src.take (namelen - 1)

/-- The value of `return strlen(name) > 0`. -/
def retOf (name : CStr) : Int := if name.length > 0 then 1 else 0

/-- The string `ptr` points at after
`if ((ptr = strrchr(s, c)) != NULL) ptr += 1; else ptr = s;`. -/
def afterLast (c : Char) : CStr → CStr
  | [] => []
  | x :: xs => if c ∈ xs then afterLast c xs else if x = c then xs else x :: xs

/-- Index of the first occurrence of `c` (`strchr`), if any. -/
def strchrIdx (c : Char) : CStr → Option Nat
  | [] => none
  | x :: xs => if x = c then some 0 else (strchrIdx c xs).map (· + 1)

namespace Win32

/-- Status of a registry read. -/
inductive LStatus where
  | ERROR_SUCCESS
  | ERROR_MORE_DATA
  | ERROR_FILE_NOT_FOUND
  | ERROR_OTHER
  deriving DecidableEq

/-- Outcome of `RegQueryValueEx` on the zero-initialised buffer `portname`: the status, and
the string the buffer holds afterwards. -/
structure RegRead where
  stat : LStatus
  data : CStr
  deriving DecidableEq

/-- The registry, as seen through the calls of `find_bmp`. Keys are named by their path
below `HKEY_LOCAL_MACHINE`.
* `openKey p`: `RegOpenKeyEx` on `p` succeeds;
* `enumKey p`: the subkey names `RegEnumKeyEx` yields on `p` for index 0, 1, ...
  (the call fails at the end of the list);
* `queryValue p v`: `RegQueryValueEx` of value `v` of key `p`;
* `enumValue p`: the data of the values `RegEnumValue` yields on `p` for index 0, 1, ...
  (the call fails at the end of the list). -/
structure Registry where
  openKey : CStr → Bool
  enumKey : CStr → List CStr
  queryValue : CStr → CStr → RegRead
  enumValue : CStr → List CStr

/-- Upper-case hexadecimal digits of a number. -/
def hexUpper (n : Nat) : CStr := (Nat.toDigits 16 n).map Char.toUpper

/-- The conversion `%0<width>X` of an `int` argument (printed as a 32-bit unsigned). -/
def fmtHex (width : Nat) (v : Int) : CStr :=
  let d := hexUpper (v % 4294967296).toNat
  List.replicate (width - d.length) (Char.ofNat 48) ++ d

/-- The key path `"SYSTEM\\CurrentControlSet\\Enum\\USB\\VID_%04X&PID_%04X&MI_%02X"`. -/
def regpath (hdr : Header) (iface : Int) : CStr :=
  "SYSTEM\\CurrentControlSet\\Enum\\USB\\VID_".toList ++ fmtHex 4 hdr.BMP_VID
    ++ "&PID_".toList ++ fmtHex 4 hdr.BMP_PID ++ "&MI_".toList ++ fmtHex 2 iface

/-- The value name `"PortName"`. -/
def PORTNAME : CStr := "PortName".toList

/-- The value name `"DeviceInterfaceGUIDs"`. -/
def GUIDS : CStr := "DeviceInterfaceGUIDs".toList

/-- The key of the live serial ports. -/
def SERIALCOMM : CStr := "HARDWARE\\DEVICEMAP\\SERIALCOMM".toList

/-- The fixed portion appended to an instance subkey. -/
def DEVPARAMS : CStr := "\\Device Parameters".toList

/-- Path of a subkey below an open key. -/
def subPath (parent sub : CStr) : CStr := parent ++ BSLASH :: sub

/-- The comparison `_tcsicmp(a, b) == 0`. -/
def tcsicmpEq (a b : CStr) : Bool := a.map Char.toLower == b.map Char.toLower

/-- The check of lines 120-122: `basename` holds a character in `'0'..'9'`. -/
def hasDigit (basename : CStr) : Bool := basename.any Char.isDigit

/-- The `for (idx = 0; !found; idx++)` loop over the values of SERIALCOMM (lines 134-147):
returns `found` and the new `seqnr`. -/
def scanSerialComm (basename : CStr) : List CStr → Int → Bool × Int
  | [], seqnr => (false, seqnr)
  | value :: rest, seqnr =>
    if tcsicmpEq (afterLast BSLASH value) basename then
      if seqnr = 0 then (true, seqnr - 1) else scanSerialComm basename rest (seqnr - 1)
    else scanSerialComm basename rest seqnr

/-- The `while (!found && seqnr >= 0)` loop (lines 91-150) over the subkeys still to be
enumerated. `none` is `return 0` (from inside the loop, or after it with `found` false);
`some (subkey, basename)` is the exit with `found` true and these buffer contents. -/
def scanDevices (reg : Registry) (section_ : CStr) : List CStr → Int → Option (CStr × CStr)
  | [], _ => none
  | sub :: rest, seqnr =>
    if seqnr < 0 then none
    else
      let subkey := sub ++ DEVPARAMS
      if !reg.openKey (subPath section_ subkey) then none
      else
        let rd := reg.queryValue (subPath section_ subkey) PORTNAME
        if rd.stat ≠ LStatus.ERROR_SUCCESS then none
        else
          let basename := afterLast BSLASH rd.data
          if !hasDigit basename then none
          else if !reg.openKey SERIALCOMM then none
          else
            match scanSerialComm basename (reg.enumValue SERIALCOMM) seqnr with
            | (true, _) => some (subkey, basename)
            | (false, seqnr1) => scanDevices reg section_ rest seqnr1

/-- The subkey after `ptr = _tcschr(subkey, '\\'); *(ptr - 1) = (TCHAR)(iface + '0')`
(lines 170-172); `none` when the assertion fails or `ptr - 1` lies before the buffer. -/
def patchSubkey (subkey : CStr) (iface : Int) : Option CStr :=
  match strchrIdx BSLASH subkey with
  | none => none
  | some 0 => none
  | some (p + 1) => some (patchAt subkey p (toChar (iface + 48)))

/-- Lines 207-209: copy `portname` to `name` and report whether it is non-empty. -/
def finish (portname : CStr) (namelen : Nat) : Option (Int × CStr) :=
  some (retOf (copyOut portname namelen), copyOut portname namelen)

/-- Lines 164-209: the lookup of the sibling interface, from the `subkey` of the anchor. -/
def resolveSibling (reg : Registry) (hdr : Header) (subkey : CStr) (iface : Int)
    (namelen : Nat) : Option (Int × CStr) :=
  if !reg.openKey (regpath hdr iface) then some (0, [])
  else
    match patchSubkey subkey iface with
    | none => none
    | some sibling =>
      if !reg.openKey (subPath (regpath hdr iface) sibling) then some (0, [])
      else if iface = hdr.BMP_IF_UART then
        let rd := reg.queryValue (subPath (regpath hdr iface) sibling) PORTNAME
        if rd.stat ≠ LStatus.ERROR_SUCCESS then some (0, [])
        else finish rd.data namelen
      else
        let rd := reg.queryValue (subPath (regpath hdr iface) sibling) GUIDS
        if rd.stat ≠ LStatus.ERROR_SUCCESS ∧ rd.stat ≠ LStatus.ERROR_MORE_DATA
            ∧ rd.stat ≠ LStatus.ERROR_FILE_NOT_FOUND then some (0, [])
        else finish rd.data namelen

/-- The function `find_bmp` of the Windows build (lines 66-210). -/
def find_bmp (reg : Registry) (hdr : Header) (seqnr iface : Int) (namelen : Nat) :
    Option (Int × CStr) :=
  if namelen = 0 then none
  else if !reg.openKey (regpath hdr BMP_IF_GDB) then some (0, [])
  else
    match scanDevices reg (regpath hdr BMP_IF_GDB) (reg.enumKey (regpath hdr BMP_IF_GDB))
        seqnr with
    | none => some (0, [])
    | some (subkey, basename) =>
      if iface = BMP_IF_GDB then
        some (retOf (copyOut basename namelen), copyOut basename namelen)
      else resolveSibling reg hdr subkey iface namelen

end Win32

namespace Linux

/-- The entry types `find_bmp` tells apart. -/
inductive DType where
  | DT_LNK
  | DT_DIR
  | DT_OTHER
  deriving DecidableEq

/-- A directory entry as returned by `readdir`. -/
structure Dirent where
  d_type : DType
  d_name : CStr
  deriving DecidableEq

/-- The file system, as seen through the calls of `find_bmp`.
* `root`: the entries `readdir` yields on `opendir(SYSFS_ROOT)` (`none`: it cannot be opened);
* `opendir p`: the same for any other directory path `p`;
* `fopen p`: the string found in the zero-filled buffer `str` after `fopen(p, "r")` and
  `fread` (`none`: the file cannot be opened);
* `access p`: `access(p, 0) == 0`. -/
structure SysFs where
  root : Option (List Dirent)
  opendir : CStr → Option (List Dirent)
  fopen : CStr → Option CStr
  access : CStr → Bool

/-- The directory `/sys/bus/usb/devices`. -/
def SYSFS_ROOT : CStr := "/sys/bus/usb/devices".toList

/-- Result of `strlcpy(dst, src, size)`, for `size > 0`. -/
def strlcpy (src : CStr) (size : Nat) : CStr := src.take (size - 1)

/-- Result of `strlcat(dst, src, size)`. -/
def strlcat (dst src : CStr) (size : Nat) : CStr :=
  if size ≤ dst.length then dst else dst ++ src.take (size - 1 - dst.length)

/-- The character class `isspace` of the C locale. -/
def isspace (c : Char) : Bool := c.toNat = 32 || (9 ≤ c.toNat && c.toNat ≤ 13)

/-- Value of a hexadecimal digit. -/
def hexVal (c : Char) : Option Nat :=
  if 48 ≤ c.toNat ∧ c.toNat ≤ 57 then some (c.toNat - 48)
  else if 97 ≤ c.toNat ∧ c.toNat ≤ 102 then some (c.toNat - 87)
  else if 65 ≤ c.toNat ∧ c.toNat ≤ 70 then some (c.toNat - 55)
  else none

/-- Accumulates the leading hexadecimal digits of a string. -/
def hexDigits : CStr → Nat → Nat
  | [], acc => acc
  | c :: cs, acc =>
    match hexVal c with
    | some d => hexDigits cs (acc * 16 + d)
    | none => acc

/-- The value `strtol(s, NULL, 16)` for a string too short to overflow: white space, an
optional sign, an optional `0x`, then hexadecimal digits. -/
def strtol16 (s : CStr) : Int :=
  let s1 := s.dropWhile isspace
  let neg := s1.head? = some (Char.ofNat 45)
  let s2 := if s1.head? = some (Char.ofNat 45) ∨ s1.head? = some (Char.ofNat 43) then s1.tail
    else s1
  let s3 :=
    match s2 with
    | z :: x :: d :: r =>
      if z.toNat = 48 ∧ (x.toNat = 120 ∨ x.toNat = 88) ∧ (hexVal d).isSome then d :: r else s2
    | _ => s2
  if neg then -(hexDigits s3 0 : Int) else (hexDigits s3 0 : Int)

/-- The function `gethex` (lines 214-223), on the string starting at `ptr`. -/
def gethex (ptr : CStr) (length : Nat) : Int := strtol16 (ptr.take length)

/-- Index of the first occurrence of `needle` (`strstr`), if any. -/
def strstrIdx (needle : CStr) : CStr → Option Nat
  | [] => if needle = [] then some 0 else none
  | x :: xs =>
    if needle.isPrefixOf (x :: xs) then some 0 else (strstrIdx needle xs).map (· + 1)

/-- The test of lines 263-269 on the contents of a `modalias` file. -/
def isBmpGdb (hdr : Header) (str : CStr) : Bool :=
  str.take 4 == "usb:".toList
  && (match strchrIdx (Char.ofNat 118) str with
      | some i => gethex (str.drop (i + 1)) 4 == hdr.BMP_VID
      | none => false)
  && (match strchrIdx (Char.ofNat 112) str with
      | some i => gethex (str.drop (i + 1)) 4 == hdr.BMP_PID
      | none => false)
  && (match strstrIdx "in".toList str with
      | some i => gethex (str.drop (i + 2)) 2 == BMP_IF_GDB
      | none => false)

/-- The filter `d_type == DT_LNK || (d_type == DT_DIR && d_name[0] != '.')`. -/
def qualifies (d : Dirent) : Bool :=
  d.d_type = DType.DT_LNK || (d.d_type = DType.DT_DIR && d.d_name.head? != some (Char.ofNat 46))

/-- The name written by `strlcpy(name, "/dev/", namelen); strlcat(name, d_name, namelen)`. -/
def devName (d_name : CStr) (namelen : Nat) : CStr :=
  strlcat (strlcpy "/dev/".toList namelen) d_name namelen

/-- The loop over the `tty` directory of an anchor (lines 277-284): returns the new
`seqnr` and `name`. -/
def scanTty (namelen : Nat) : List Dirent → Int → CStr → Int × CStr
  | [], seqnr, name => (seqnr, name)
  | d :: rest, seqnr, name =>
    if name.length ≠ 0 then (seqnr, name)
    else if qualifies d then
      if seqnr = 0 then scanTty namelen rest (seqnr - 1) (devName d.d_name namelen)
      else scanTty namelen rest (seqnr - 1) name
    else scanTty namelen rest seqnr name

/-- The loop over the `tty` directory of the UART sibling (lines 299-304). -/
def scanUart (namelen : Nat) : List Dirent → CStr → CStr
  | [], name => name
  | d :: rest, name =>
    if name.length ≠ 0 then name
    else if qualifies d then scanUart namelen rest (devName d.d_name namelen)
    else scanUart namelen rest name

/-- The path `SYSFS_ROOT "/%s/tty"`. -/
def ttyPath (d_name : CStr) : CStr := SYSFS_ROOT ++ "/".toList ++ d_name ++ "/tty".toList

/-- The path `SYSFS_ROOT "/%s/modalias"`. -/
def modaliasPath (d_name : CStr) : CStr :=
  SYSFS_ROOT ++ "/".toList ++ d_name ++ "/modalias".toList

/-- Lines 291-319: from the `tty` path of the anchor, the name of the requested sibling
interface; `none` when an assertion fails. -/
def resolveSibling (fs : SysFs) (hdr : Header) (path : CStr) (iface : Int) (namelen : Nat) :
    Option CStr :=
  let p := path.length - 5
  if ¬ (path.length > 5) then none
  else if ¬ (path.get? p = some (Char.ofNat 48) ∧ path.get? (p - 1) = some (Char.ofNat 46)
      ∧ path.get? (p + 1) = some (Char.ofNat 47)) then none
  else
    let path1 := patchAt path p (toChar (iface + 48))
    if iface = hdr.BMP_IF_UART then
      match fs.opendir path1 with
      | none => some []
      | some ents => some (scanUart namelen ents [])
    else
      let q := path1.length - 4
      if ¬ (path1.length > 4) then none
      else if ¬ (path1.get? q = some (Char.ofNat 47)
          ∧ (path1.get? (q - 1)).map charInt = some (iface + 48)) then none
      else if fs.access (path1.take q ++ "/modalias".toList) then
        some (strlcpy ((path1.take q).drop (SYSFS_ROOT.length + 1)) namelen)
      else some []

/-- The `while` loop of lines 251-325 over the entries of the root directory still to be
read: the final `name`, or `none` when an assertion fails. -/
def scanSysfs (fs : SysFs) (hdr : Header) (iface : Int) (namelen : Nat) :
    List Dirent → Int → CStr → Option CStr
  | [], _, name => some name
  | d :: rest, seqnr, name =>
    if ¬ (name.length = 0 ∧ seqnr ≥ 0) then some name
    else if qualifies d then
      match fs.fopen (modaliasPath d.d_name) with
      | none => scanSysfs fs hdr iface namelen rest seqnr name
      | some str =>
        if isBmpGdb hdr str then
          let found :=
            match fs.opendir (ttyPath d.d_name) with
            | none => (seqnr, name)
            | some ents => scanTty namelen ents seqnr name
          if found.2.length > 0 ∧ iface ≠ BMP_IF_GDB then
            match resolveSibling fs hdr (ttyPath d.d_name) iface namelen with
            | none => none
            | some name2 => scanSysfs fs hdr iface namelen rest found.1 name2
          else scanSysfs fs hdr iface namelen rest found.1 found.2
        else scanSysfs fs hdr iface namelen rest seqnr name
    else scanSysfs fs hdr iface namelen rest seqnr name

/-- The function `find_bmp` of the Linux build (lines 236-329). -/
def find_bmp (fs : SysFs) (hdr : Header) (seqnr iface : Int) (namelen : Nat) :
    Option (Int × CStr) :=
  if namelen = 0 then none
  else
    match fs.root with
    | none => some (0, [])
    | some ents =>
      (scanSysfs fs hdr iface namelen ents seqnr []).map (fun name => (retOf name, name))

end Linux


/-! ## Fixtures -/

/-- The ids of the Black Magic Probe (`1D50:6018`), with the UART on interface 2. -/
def bmpHdr : Header := { BMP_VID := 0x1D50, BMP_PID := 0x6018, BMP_IF_UART := 2 }

/-- A registry given by the list of its keys, the instance subkeys of the GDB section, its
values and the data of the SERIALCOMM values. -/
def mkRegistry (keys : List CStr) (subkeys : List CStr) (values : List (CStr × CStr × CStr))
    (live : List CStr) : Win32.Registry where
  openKey := fun p => keys.contains p
  enumKey := fun p => if p = Win32.regpath bmpHdr BMP_IF_GDB then subkeys else []
  queryValue := fun p v =>
    match values.find? (fun e => e.1 = p ∧ e.2.1 = v) with
    | some e => { stat := Win32.LStatus.ERROR_SUCCESS, data := e.2.2 }
    | none => { stat := Win32.LStatus.ERROR_FILE_NOT_FOUND, data := [] }
  enumValue := fun p => if p = Win32.SERIALCOMM then live else []

/-- The `Device Parameters` key of instance `inst` of interface `iface`. -/
def devKey (iface : Int) (inst : String) : CStr :=
  Win32.subPath (Win32.regpath bmpHdr iface) (inst.toList ++ Win32.DEVPARAMS)

/-- A file system given by the root entries, the directories, the files. -/
def mkSysFs (root : List Linux.Dirent) (dirs : List (CStr × List Linux.Dirent))
    (files : List (CStr × CStr)) : Linux.SysFs where
  root := some root
  opendir := fun p => (dirs.find? (fun e => e.1 = p)).map (·.2)
  fopen := fun p => (files.find? (fun e => e.1 = p)).map (·.2)
  access := fun p => (files.find? (fun e => e.1 = p)).isSome || (dirs.find? (fun e => e.1 = p)).isSome

/-- A link entry. -/
def lnk (s : String) : Linux.Dirent := { d_type := Linux.DType.DT_LNK, d_name := s.toList }

/-- A directory entry. -/
def dirE (s : String) : Linux.Dirent := { d_type := Linux.DType.DT_DIR, d_name := s.toList }

/-- The modalias line of interface `n` of a Black Magic Probe. -/
def bmpAlias (n : String) : CStr :=
  ("usb:v1D50p6018d0100dcEFdsc02dp01ic02isc02ip01in" ++ n ++ "\n").toList

/-- Two probes; probe 0 has GDB, UART and trace, probe 1 has GDB and UART only. -/
def regTwo : Win32.Registry :=
  mkRegistry
    [Win32.regpath bmpHdr 0, Win32.regpath bmpHdr 2, Win32.regpath bmpHdr 5, Win32.SERIALCOMM,
      devKey 0 "A&0000", devKey 0 "B&0000", devKey 2 "A&0002", devKey 2 "B&0002",
      devKey 5 "A&0005"]
    ["A&0000".toList, "B&0000".toList]
    [(devKey 0 "A&0000", Win32.PORTNAME, "COM3".toList),
      (devKey 0 "B&0000", Win32.PORTNAME, "COM7".toList),
      (devKey 2 "A&0002", Win32.PORTNAME, "COM4".toList),
      (devKey 2 "B&0002", Win32.PORTNAME, "COM8".toList),
      (devKey 5 "A&0005", Win32.GUIDS, "\x7bCEC5B3F1\x7d".toList)]
    ["COM1".toList, "COM3".toList, "COM4".toList, "\\\\.\\com7".toList, "COM8".toList]

/-- Two probes; probe 0 has GDB, UART and trace, probe 1 has GDB and UART only. -/
def sysTwo : Linux.SysFs :=
  mkSysFs
    [dirE ".", dirE "..", lnk "usb1", lnk "1-1", lnk "1-1:1.0", lnk "1-1:1.1", lnk "1-1:1.2",
      lnk "1-1:1.5", lnk "1-2", lnk "1-2:1.0", lnk "1-2:1.2"]
    [(Linux.ttyPath "1-1:1.0".toList, [dirE ".", dirE "..", dirE "ttyACM0"]),
      (Linux.ttyPath "1-1:1.2".toList, [dirE ".", dirE "..", dirE "ttyACM1"]),
      (Linux.ttyPath "1-2:1.0".toList, [dirE ".", dirE "..", dirE "ttyACM2"]),
      (Linux.ttyPath "1-2:1.2".toList, [dirE ".", dirE "..", dirE "ttyACM3"])]
    [(Linux.modaliasPath "1-1:1.0".toList, bmpAlias "00"),
      (Linux.modaliasPath "1-1:1.1".toList, bmpAlias "01"),
      (Linux.modaliasPath "1-1:1.2".toList, bmpAlias "02"),
      (Linux.modaliasPath "1-1:1.5".toList, bmpAlias "05"),
      (Linux.modaliasPath "1-2:1.0".toList, bmpAlias "00"),
      (Linux.modaliasPath "1-2:1.2".toList, bmpAlias "02")]

/-- Three anchors: the first with two qualifying `tty` entries, the second without a `tty`
directory, the third with one entry. -/
def sysDouble : Linux.SysFs :=
  mkSysFs
    [dirE ".", dirE "..", lnk "1-1:1.0", lnk "1-2:1.0", lnk "1-3:1.0"]
    [(Linux.ttyPath "1-1:1.0".toList, [dirE ".", dirE "..", dirE "ttyACM0", dirE "ttyACM1"]),
      (Linux.ttyPath "1-3:1.0".toList, [dirE ".", dirE "..", dirE "ttyACM2"])]
    [(Linux.modaliasPath "1-1:1.0".toList, bmpAlias "00"),
      (Linux.modaliasPath "1-2:1.0".toList, bmpAlias "00"),
      (Linux.modaliasPath "1-3:1.0".toList, bmpAlias "00")]

/-- A candidate without a digit in its port name (`COMX`), enumerated before a valid probe
on `COM3`; only `COM3` is live. -/
def regDigitless : Win32.Registry :=
  mkRegistry
    [Win32.regpath bmpHdr 0, Win32.SERIALCOMM, devKey 0 "X&0000", devKey 0 "Y&0000"]
    ["X&0000".toList, "Y&0000".toList]
    [(devKey 0 "X&0000", Win32.PORTNAME, "COMX".toList),
      (devKey 0 "Y&0000", Win32.PORTNAME, "COM3".toList)]
    ["COM1".toList, "COM3".toList]

/-- One probe whose port names are stored with the device prefix (backslash, backslash,
dot, backslash) in front of `COM3` (GDB server) and `COM4` (UART). -/
def regPrefixed : Win32.Registry :=
  mkRegistry
    [Win32.regpath bmpHdr 0, Win32.regpath bmpHdr 2, Win32.SERIALCOMM, devKey 0 "A&0000",
      devKey 2 "A&0002"]
    ["A&0000".toList]
    [(devKey 0 "A&0000", Win32.PORTNAME, "\\\\.\\COM3".toList),
      (devKey 2 "A&0002", Win32.PORTNAME, "\\\\.\\COM4".toList)]
    ["COM3".toList, "COM4".toList]

/-- A stale candidate (`COM5`, not live) between two live probes, then a candidate without a
digit in its port name, then another live probe. -/
def regStale : Win32.Registry :=
  mkRegistry
    [Win32.regpath bmpHdr 0, Win32.SERIALCOMM, devKey 0 "A&0000", devKey 0 "B&0000",
      devKey 0 "C&0000", devKey 0 "D&0000", devKey 0 "E&0000"]
    ["A&0000".toList, "B&0000".toList, "C&0000".toList, "D&0000".toList, "E&0000".toList]
    [(devKey 0 "A&0000", Win32.PORTNAME, "COM3".toList),
      (devKey 0 "B&0000", Win32.PORTNAME, "COM5".toList),
      (devKey 0 "C&0000", Win32.PORTNAME, "COM7".toList),
      (devKey 0 "D&0000", Win32.PORTNAME, "COMX".toList),
      (devKey 0 "E&0000", Win32.PORTNAME, "COM9".toList)]
    ["COM3".toList, "COM7".toList, "COM9".toList]

/-- A live probe, then a candidate whose `Device Parameters` key does not open, then
another live probe. -/
def regBroken : Win32.Registry :=
  mkRegistry
    [Win32.regpath bmpHdr 0, Win32.SERIALCOMM, devKey 0 "A&0000", devKey 0 "E&0000"]
    ["A&0000".toList, "D&0000".toList, "E&0000".toList]
    [(devKey 0 "A&0000", Win32.PORTNAME, "COM3".toList),
      (devKey 0 "E&0000", Win32.PORTNAME, "COM9".toList)]
    ["COM3".toList, "COM9".toList]

/-- A device directory without a `modalias` file, a GDB interface directory without a `tty`
directory, then two valid probes. -/
def sysSkip : Linux.SysFs :=
  mkSysFs
    [dirE ".", dirE "..", lnk "usb1", lnk "1-1:1.0", lnk "1-2:1.0", lnk "1-3:1.0"]
    [(Linux.ttyPath "1-2:1.0".toList, [dirE ".", dirE "..", dirE "ttyACM0"]),
      (Linux.ttyPath "1-3:1.0".toList, [dirE ".", dirE "..", dirE "ttyACM1"])]
    [(Linux.modaliasPath "1-1:1.0".toList, bmpAlias "00"),
      (Linux.modaliasPath "1-2:1.0".toList, bmpAlias "00"),
      (Linux.modaliasPath "1-3:1.0".toList, bmpAlias "00")]

/-! ## Specification-level vocabulary -/

namespace Win32

/-- The `Device Parameters` key of instance `sub` of interface `iface`. -/
def instKey (hdr : Header) (iface : Int) (sub : CStr) : CStr :=
  subPath (regpath hdr iface) (sub ++ DEVPARAMS)

/-- The `PortName` read of the GDB instance `sub`. -/
def gdbRead (reg : Registry) (hdr : Header) (sub : CStr) : RegRead :=
  reg.queryValue (instKey hdr BMP_IF_GDB sub) PORTNAME

/-- The GDB resource name of instance `sub`: its `PortName` after the last backslash. -/
def gdbName (reg : Registry) (hdr : Header) (sub : CStr) : CStr :=
  afterLast BSLASH (gdbRead reg hdr sub).data

/-- Number of values of the live table whose name (after the last backslash, compared
case-insensitively) is `port`. -/
def liveCount (reg : Registry) (port : CStr) : Nat :=
  (reg.enumValue SERIALCOMM).countP (fun v => tcsicmpEq (afterLast BSLASH v) port)

/-- The queries on a candidate succeed: its key opens and its `PortName` is read. -/
def readable (reg : Registry) (hdr : Header) (sub : CStr) : Bool :=
  reg.openKey (instKey hdr BMP_IF_GDB sub) && decide ((gdbRead reg hdr sub).stat = LStatus.ERROR_SUCCESS)

/-- The candidate passes the checks made before the live table is consulted. -/
def sane (reg : Registry) (hdr : Header) (sub : CStr) : Bool :=
  readable reg hdr sub && hasDigit (gdbName reg hdr sub)

/-- The occurrence slots of an enumeration: every candidate up to the first one that ends
the scan, repeated once per matching value of the live table. -/
def slots (reg : Registry) (hdr : Header) : List CStr → List (CStr × CStr)
  | [] => []
  | sub :: rest =>
    if sane reg hdr sub && reg.openKey SERIALCOMM then
      List.replicate (liveCount reg (gdbName reg hdr sub)) (sub ++ DEVPARAMS, gdbName reg hdr sub)
        ++ slots reg hdr rest
    else []

/-- The candidates: the instance subkeys enumerated below the GDB section key. -/
def probes (reg : Registry) (hdr : Header) : List CStr := reg.enumKey (regpath hdr BMP_IF_GDB)

/-- Every candidate is a well-formed probe: the section key and the live table open, every
candidate is readable, its port name holds a digit and is listed exactly once in the live
table. -/
def wellFormed (reg : Registry) (hdr : Header) : Bool :=
  reg.openKey (regpath hdr BMP_IF_GDB) && reg.openKey SERIALCOMM
    && (probes reg hdr).all (fun sub => sane reg hdr sub && liveCount reg (gdbName reg hdr sub) == 1)

/-- The candidate is stale: its `PortName` is read and is not the name of any value of the
live table. -/
def stale (reg : Registry) (hdr : Header) (sub : CStr) : Bool :=
  readable reg hdr sub && liveCount reg (gdbName reg hdr sub) == 0

/-- The candidate is stale and its port name holds a digit. -/
def staleWithDigit (reg : Registry) (hdr : Header) (sub : CStr) : Bool :=
  sane reg hdr sub && liveCount reg (gdbName reg hdr sub) == 0

/-- The candidate is live: its port name is listed in the live table. -/
def live (reg : Registry) (hdr : Header) (sub : CStr) : Bool :=
  decide (1 ≤ liveCount reg (gdbName reg hdr sub))

/-- The name of the sibling instance of interface `iface`: the instance name with its last
character replaced by the digit of the interface. -/
def siblingName (sub : CStr) (iface : Int) : CStr := sub.dropLast ++ [toChar (iface + 48)]

/-- The registry with another enumeration of instance subkeys. -/
def withSubkeys (reg : Registry) (subkeys : List CStr) : Registry :=
  { reg with enumKey := fun _ => subkeys }

end Win32

namespace Linux

/-- The entry is a GDB interface directory of a probe: the scan looks at it, its `modalias`
opens and passes the test. -/
def isAnchor (fs : SysFs) (hdr : Header) (d : Dirent) : Bool :=
  qualifies d &&
    (match fs.fopen (modaliasPath d.d_name) with
     | some str => isBmpGdb hdr str
     | none => false)

/-- Names of the qualifying entries of a directory listing, in enumeration order. -/
def quals (ents : List Dirent) : List CStr := (ents.filter qualifies).map (·.d_name)

/-- Names of the qualifying entries of the `tty` directory of `d_name` (none when the
directory cannot be opened). -/
def ttyNames (fs : SysFs) (d_name : CStr) : List CStr :=
  match fs.opendir (ttyPath d_name) with
  | some ents => quals ents
  | none => []

/-- The occurrence slots of an enumeration: for every anchor in turn, its qualifying `tty`
entries, each paired with the directory name of the anchor. -/
def slots (fs : SysFs) (hdr : Header) : List Dirent → List (CStr × CStr)
  | [] => []
  | d :: rest =>
    (if isAnchor fs hdr d then (ttyNames fs d.d_name).map (fun t => (d.d_name, t)) else [])
      ++ slots fs hdr rest

/-- The entries of the root directory (none when it cannot be opened). -/
def rootEntries (fs : SysFs) : List Dirent := fs.root.getD []

/-- The probes: the GDB interface directories among the entries of the root directory. -/
def probes (fs : SysFs) (hdr : Header) : List Dirent := (rootEntries fs).filter (isAnchor fs hdr)

/-- Every probe is well formed: its `tty` directory opens and holds exactly one qualifying
entry. -/
def wellFormed (fs : SysFs) (hdr : Header) : Bool :=
  (probes fs hdr).all (fun d => (ttyNames fs d.d_name).length == 1)

/-- The file system with another enumeration of the root directory. -/
def withRoot (fs : SysFs) (ents : List Dirent) : SysFs := { fs with root := some ents }

/-- The name of the sibling interface `iface` of the directory `stem ++ ".0"`. -/
def siblingName (stem : CStr) (iface : Int) : CStr :=
  stem ++ [Char.ofNat 46, toChar (iface + 48)]

/-- What the scan does once the target slot `(d_name, t)` is reached. -/
def atSlot (fs : SysFs) (hdr : Header) (iface : Int) (namelen : Nat)
    (slot : CStr × CStr) : Option CStr :=
  if (devName slot.2 namelen).length > 0 ∧ iface ≠ BMP_IF_GDB then
    resolveSibling fs hdr (ttyPath slot.1) iface namelen
  else some (devName slot.2 namelen)

/-- The device name `"/dev/" ++ t`. -/
def dev (t : CStr) : CStr := "/dev/".toList ++ t

end Linux

/-- The output contract, as a predicate on a result. -/
def Contract (namelen : Nat) (res : Int × CStr) : Prop :=
  res.2.length ≤ namelen - 1 ∧ (res.1 ≠ 0 ↔ res.2 ≠ []) ∧ (res.1 = 0 → res.2 = [])

/-! ## Lemmas on the registry scan -/

theorem scanSerialComm_found (b : CStr) (l : List CStr) :
    ∀ s : Int, 0 ≤ s →
      s < ((l.countP (fun v => Win32.tcsicmpEq (afterLast BSLASH v) b) : Nat) : Int) →
      (Win32.scanSerialComm b l s).1 = true := by
  induction l with
  | nil => intro s h0 h; simp at h; omega
  | cons v rest ih =>
    intro s h0 h
    unfold Win32.scanSerialComm
    by_cases hm : Win32.tcsicmpEq (afterLast BSLASH v) b = true
    · simp only [List.countP_cons, hm, if_true] at h
      simp only [hm, if_true]
      by_cases hs : s = 0
      · simp [hs]
      · simp only [hs, if_false]
        apply ih
        · omega
        · push_cast at h; omega
    · simp only [List.countP_cons, hm, if_false, Bool.false_eq_true, Nat.add_zero] at h
      simp only [hm]
      exact ih s h0 h

theorem scanSerialComm_missed (b : CStr) (l : List CStr) :
    ∀ s : Int, ((l.countP (fun v => Win32.tcsicmpEq (afterLast BSLASH v) b) : Nat) : Int) ≤ s →
      Win32.scanSerialComm b l s
        = (false, s - ((l.countP (fun v => Win32.tcsicmpEq (afterLast BSLASH v) b) : Nat) : Int)) := by
  induction l with
  | nil => intro s _; simp [Win32.scanSerialComm]
  | cons v rest ih =>
    intro s h
    unfold Win32.scanSerialComm
    by_cases hm : Win32.tcsicmpEq (afterLast BSLASH v) b = true
    · simp only [List.countP_cons, hm, if_true] at h ⊢
      push_cast at h ⊢
      have hs : s ≠ 0 := by omega
      simp only [hs, if_false]
      rw [ih (s - 1) (by omega)]
      congr 1
      omega
    · simp only [List.countP_cons, hm, if_false, Bool.false_eq_true, Nat.add_zero] at h ⊢
      exact ih s h

theorem scanDevices_neg (reg : Win32.Registry) (sec : CStr) (l : List CStr) (s : Int)
    (hs : s < 0) : Win32.scanDevices reg sec l s = none := by
  cases l with
  | nil => rfl
  | cons sub rest => unfold Win32.scanDevices; simp [hs]

theorem getElem?_replicate_append {α : Type} (m : Nat) (x : α) (r : List α) (n : Nat) :
    (List.replicate m x ++ r)[n]? = if n < m then some x else r[n - m]? := by
  by_cases h : n < m
  · rw [List.getElem?_append_left (by simpa using h)]
    simp [h]
  · rw [List.getElem?_append_right (by simpa using h)]
    simp [h]

/-- One turn of the anchor loop, in the vocabulary of the specification. -/
theorem scanDevices_cons (reg : Win32.Registry) (hdr : Header) (sub : CStr) (rest : List CStr)
    (s : Int) (h0 : 0 ≤ s) :
    Win32.scanDevices reg (Win32.regpath hdr BMP_IF_GDB) (sub :: rest) s
      = if (Win32.sane reg hdr sub && reg.openKey Win32.SERIALCOMM) = true then
          (match Win32.scanSerialComm (Win32.gdbName reg hdr sub)
              (reg.enumValue Win32.SERIALCOMM) s with
            | (true, _) => some (sub ++ Win32.DEVPARAMS, Win32.gdbName reg hdr sub)
            | (false, s1) => Win32.scanDevices reg (Win32.regpath hdr BMP_IF_GDB) rest s1)
        else none := by
  have hneg : ¬ s < 0 := by omega
  rw [Win32.scanDevices]
  simp only [hneg, if_false, Win32.sane, Win32.readable, Win32.gdbName, Win32.gdbRead,
    Win32.instKey]
  cases reg.openKey (Win32.subPath (Win32.regpath hdr BMP_IF_GDB) (sub ++ Win32.DEVPARAMS))
  · simp
  · by_cases hstat : (reg.queryValue (Win32.subPath (Win32.regpath hdr BMP_IF_GDB)
        (sub ++ Win32.DEVPARAMS)) Win32.PORTNAME).stat = Win32.LStatus.ERROR_SUCCESS
    · cases Win32.hasDigit (afterLast BSLASH (reg.queryValue (Win32.subPath
          (Win32.regpath hdr BMP_IF_GDB) (sub ++ Win32.DEVPARAMS)) Win32.PORTNAME).data)
      · simp [hstat]
      · cases reg.openKey Win32.SERIALCOMM
        · simp [hstat]
        · simp [hstat]
    · simp [hstat]

/-- The anchor loop is a lookup in the list of occurrence slots. -/
theorem scanDevices_eq_slots (reg : Win32.Registry) (hdr : Header) (l : List CStr) :
    ∀ s : Int, 0 ≤ s →
      Win32.scanDevices reg (Win32.regpath hdr BMP_IF_GDB) l s
        = (Win32.slots reg hdr l)[s.toNat]? := by
  induction l with
  | nil => intro s _; simp [Win32.scanDevices, Win32.slots]
  | cons sub rest ih =>
    intro s h0
    rw [scanDevices_cons reg hdr sub rest s h0, Win32.slots]
    by_cases hok : (Win32.sane reg hdr sub && reg.openKey Win32.SERIALCOMM) = true
    · simp only [hok, if_true]
      rw [getElem?_replicate_append]
      by_cases hlt : s.toNat < Win32.liveCount reg (Win32.gdbName reg hdr sub)
      · have hf := scanSerialComm_found (Win32.gdbName reg hdr sub)
          (reg.enumValue Win32.SERIALCOMM) s h0 (by unfold Win32.liveCount at hlt; omega)
        simp only [hlt, if_true]
        generalize Win32.scanSerialComm _ _ s = r at hf ⊢
        obtain ⟨r1, r2⟩ := r
        simp only at hf
        subst hf
        rfl
      · have hge : ((Win32.liveCount reg (Win32.gdbName reg hdr sub) : Nat) : Int) ≤ s := by omega
        have hm := scanSerialComm_missed (Win32.gdbName reg hdr sub)
          (reg.enumValue Win32.SERIALCOMM) s hge
        simp only [hlt, if_false]
        rw [hm]
        simp only
        rw [ih _ (by unfold Win32.liveCount at hge; omega)]
        congr 1
        unfold Win32.liveCount at hge ⊢
        omega
    · simp only [hok, if_false]
      simp

/-! ## Lemmas on the sysfs scan -/

theorem devName_eq (t : CStr) (namelen : Nat) (hn : 0 < namelen) :
    Linux.devName t namelen = copyOut (Linux.dev t) namelen := by
  unfold Linux.devName Linux.strlcat Linux.strlcpy copyOut Linux.dev
  have h5 : "/dev/".toList.length = 5 := by decide
  have hlen : ¬ namelen ≤ (List.take (namelen - 1) "/dev/".toList).length := by
    rw [List.length_take]; omega
  simp only [hlen, if_false]
  rw [List.take_append_eq_append_take, List.length_take, h5]
  congr 2
  omega

theorem scanTty_neg (namelen : Nat) (l : List Linux.Dirent) :
    ∀ (s : Int) (name : CStr), s < 0 →
      ∃ s1 : Int, s1 < 0 ∧ Linux.scanTty namelen l s name = (s1, name) := by
  induction l with
  | nil => intro s name hs; exact ⟨s, hs, rfl⟩
  | cons d rest ih =>
    intro s name hs
    unfold Linux.scanTty
    by_cases hname : name.length ≠ 0
    · exact ⟨s, hs, by simp [hname]⟩
    · have hs0 : s ≠ 0 := by omega
      simp only [hname, if_false, hs0]
      by_cases hq : Linux.qualifies d = true
      · simp only [hq, if_true]
        exact ih (s - 1) name (by omega)
      · simp only [hq]
        exact ih s name hs

theorem scanTty_found (namelen : Nat) (l : List Linux.Dirent) :
    ∀ (s : Int) (t : CStr), 0 ≤ s → (Linux.quals l)[s.toNat]? = some t →
      ∃ s1 : Int, s1 < 0 ∧ Linux.scanTty namelen l s [] = (s1, Linux.devName t namelen) := by
  induction l with
  | nil => intro s t _ h; simp [Linux.quals] at h
  | cons d rest ih =>
    intro s t h0 h
    unfold Linux.scanTty
    simp only [List.length_nil, ne_eq, not_true_eq_false, if_false]
    by_cases hq : Linux.qualifies d = true
    · simp only [hq, if_true]
      have hqs : Linux.quals (d :: rest) = d.d_name :: Linux.quals rest := by
        simp [Linux.quals, hq]
      rw [hqs] at h
      by_cases hs : s = 0
      · subst hs
        simp at h
        subst h
        simp only [if_true]
        exact scanTty_neg namelen rest _ _ (by omega)
      · simp only [hs, if_false]
        have hnat : s.toNat = (s - 1).toNat + 1 := by omega
        rw [hnat, List.getElem?_cons_succ] at h
        exact ih (s - 1) t (by omega) h
    · simp only [hq]
      have hqs : Linux.quals (d :: rest) = Linux.quals rest := by
        simp [Linux.quals, hq]
      rw [hqs] at h
      exact ih s t h0 h

theorem scanTty_missed (namelen : Nat) (l : List Linux.Dirent) :
    ∀ (s : Int), ((Linux.quals l).length : Int) ≤ s →
      Linux.scanTty namelen l s [] = (s - ((Linux.quals l).length : Int), []) := by
  induction l with
  | nil => intro s _; simp [Linux.scanTty, Linux.quals]
  | cons d rest ih =>
    intro s h
    unfold Linux.scanTty
    simp only [List.length_nil, ne_eq, not_true_eq_false, if_false]
    by_cases hq : Linux.qualifies d = true
    · have hqs : Linux.quals (d :: rest) = d.d_name :: Linux.quals rest := by
        simp [Linux.quals, hq]
      rw [hqs] at h ⊢
      simp only [List.length_cons] at h ⊢
      push_cast at h ⊢
      have hs : s ≠ 0 := by omega
      simp only [hq, if_true, hs, if_false]
      rw [ih (s - 1) (by omega)]
      congr 1
      omega
    · have hqs : Linux.quals (d :: rest) = Linux.quals rest := by
        simp [Linux.quals, hq]
      rw [hqs] at h ⊢
      simp only [hq]
      exact ih s h

theorem scanSysfs_stop (fs : Linux.SysFs) (hdr : Header) (iface : Int) (namelen : Nat)
    (l : List Linux.Dirent) (s : Int) (name : CStr) (h : ¬ (name.length = 0 ∧ s ≥ 0)) :
    Linux.scanSysfs fs hdr iface namelen l s name = some name := by
  cases l with
  | nil => rfl
  | cons d rest => unfold Linux.scanSysfs; simp only [h, not_false_eq_true, if_true]

/-- One turn of the sysfs loop, in the vocabulary of the specification. -/
theorem scanSysfs_cons (fs : Linux.SysFs) (hdr : Header) (iface : Int) (namelen : Nat)
    (d : Linux.Dirent) (rest : List Linux.Dirent) (s : Int) (h0 : 0 ≤ s) :
    Linux.scanSysfs fs hdr iface namelen (d :: rest) s []
      = if Linux.isAnchor fs hdr d = true then
          (match (Linux.ttyNames fs d.d_name)[s.toNat]? with
            | some t => Linux.atSlot fs hdr iface namelen (d.d_name, t)
            | none => Linux.scanSysfs fs hdr iface namelen rest
                (s - ((Linux.ttyNames fs d.d_name).length : Int)) [])
        else Linux.scanSysfs fs hdr iface namelen rest s [] := by
  rw [Linux.scanSysfs]
  have hc : ¬ ¬ (([] : CStr).length = 0 ∧ s ≥ 0) := by simp [h0]
  simp only [hc, if_false, Linux.isAnchor]
  by_cases hq : Linux.qualifies d = true
  · simp only [hq, if_true, Bool.true_and]
    rcases hf : fs.fopen (Linux.modaliasPath d.d_name) with _ | str
    · simp
    · simp only
      by_cases hb : Linux.isBmpGdb hdr str = true
      · simp only [hb, if_true]
        unfold Linux.ttyNames
        rcases ho : fs.opendir (Linux.ttyPath d.d_name) with _ | ents
        · simp
        · simp only
          rcases hg : (Linux.quals ents)[s.toNat]? with _ | t
          · have hlen : ((Linux.quals ents).length : Int) ≤ s := by
              have := List.getElem?_eq_none_iff.mp hg
              omega
            rw [scanTty_missed namelen ents s hlen]
            simp
          · obtain ⟨s1, hs1, hscan⟩ := scanTty_found namelen ents s t h0 hg
            rw [hscan]
            simp only [Linux.atSlot]
            by_cases hcond : (Linux.devName t namelen).length > 0 ∧ iface ≠ BMP_IF_GDB
            · rw [if_pos hcond, if_pos hcond]
              cases Linux.resolveSibling fs hdr (Linux.ttyPath d.d_name) iface namelen with
              | none => rfl
              | some name2 =>
                simp only
                exact scanSysfs_stop fs hdr iface namelen rest s1 name2 (by omega)
            · rw [if_neg hcond, if_neg hcond]
              exact scanSysfs_stop fs hdr iface namelen rest s1 _ (by omega)
      · simp [hb]
  · simp [hq]

/-- The sysfs loop is a lookup in the list of occurrence slots. -/
theorem scanSysfs_eq_slots (fs : Linux.SysFs) (hdr : Header) (iface : Int) (namelen : Nat)
    (l : List Linux.Dirent) :
    ∀ s : Int, 0 ≤ s →
      Linux.scanSysfs fs hdr iface namelen l s []
        = (match (Linux.slots fs hdr l)[s.toNat]? with
            | some slot => Linux.atSlot fs hdr iface namelen slot
            | none => some []) := by
  induction l with
  | nil => intro s _; simp [Linux.scanSysfs, Linux.slots]
  | cons d rest ih =>
    intro s h0
    rw [scanSysfs_cons fs hdr iface namelen d rest s h0, Linux.slots]
    by_cases ha : Linux.isAnchor fs hdr d = true
    · simp only [ha, if_true]
      by_cases hlt : s.toNat < (Linux.ttyNames fs d.d_name).length
      · rw [List.getElem?_append_left (by simpa using hlt)]
        rw [List.getElem?_map]
        rw [List.getElem?_eq_getElem hlt]
        simp
      · rw [List.getElem?_append_right (by simpa using hlt)]
        rw [List.getElem?_eq_none_iff.mpr (by omega)]
        simp only [List.length_map]
        rw [ih _ (by omega)]
        congr 2
        omega
    · simp only [ha, if_false, Bool.false_eq_true, List.nil_append]
      exact ih s h0

/-! ## Closed forms of `find_bmp` -/

theorem win_find_bmp_neg (reg : Win32.Registry) (hdr : Header) (k iface : Int) (namelen : Nat)
    (hn : 0 < namelen) (hk : k < 0) :
    Win32.find_bmp reg hdr k iface namelen = some (0, []) := by
  unfold Win32.find_bmp
  have hn0 : namelen ≠ 0 := by omega
  simp only [hn0, if_false]
  rw [scanDevices_neg _ _ _ _ hk]
  simp

theorem win_find_bmp_eq (reg : Win32.Registry) (hdr : Header) (k iface : Int) (namelen : Nat)
    (hn : 0 < namelen) (hk : 0 ≤ k) (hsec : reg.openKey (Win32.regpath hdr BMP_IF_GDB) = true) :
    Win32.find_bmp reg hdr k iface namelen
      = (match (Win32.slots reg hdr (reg.enumKey (Win32.regpath hdr BMP_IF_GDB)))[k.toNat]? with
          | none => some (0, [])
          | some slot =>
            if iface = BMP_IF_GDB then
              some (retOf (copyOut slot.2 namelen), copyOut slot.2 namelen)
            else Win32.resolveSibling reg hdr slot.1 iface namelen) := by
  unfold Win32.find_bmp
  have hn0 : namelen ≠ 0 := by omega
  simp only [hn0, if_false, hsec, Bool.not_true, Bool.false_eq_true]
  rw [scanDevices_eq_slots reg hdr _ k hk]
  rcases (Win32.slots reg hdr (reg.enumKey (Win32.regpath hdr BMP_IF_GDB)))[k.toNat]? with _ | ⟨a, b⟩
  · rfl
  · rfl

theorem linux_find_bmp_neg (fs : Linux.SysFs) (hdr : Header) (k iface : Int) (namelen : Nat)
    (hn : 0 < namelen) (hk : k < 0) :
    Linux.find_bmp fs hdr k iface namelen = some (0, []) := by
  unfold Linux.find_bmp
  have hn0 : namelen ≠ 0 := by omega
  simp only [hn0, if_false]
  rcases fs.root with _ | ents
  · rfl
  · simp only
    rw [scanSysfs_stop fs hdr iface namelen ents k [] (by omega)]
    rfl

theorem linux_find_bmp_eq (fs : Linux.SysFs) (hdr : Header) (k iface : Int) (namelen : Nat)
    (hn : 0 < namelen) (hk : 0 ≤ k) :
    Linux.find_bmp fs hdr k iface namelen
      = (match (Linux.slots fs hdr (Linux.rootEntries fs))[k.toNat]? with
          | none => some (0, [])
          | some slot =>
            (Linux.atSlot fs hdr iface namelen slot).map (fun name => (retOf name, name))) := by
  unfold Linux.find_bmp Linux.rootEntries
  have hn0 : namelen ≠ 0 := by omega
  simp only [hn0, if_false]
  rcases fs.root with _ | ents
  · simp [Linux.slots]
  · simp only [Option.getD_some]
    rw [scanSysfs_eq_slots fs hdr iface namelen ents k hk]
    rcases (Linux.slots fs hdr ents)[k.toNat]? with _ | slot
    · rfl
    · rfl

theorem retOf_copyOut (x : CStr) (namelen : Nat) :
    retOf (copyOut x namelen) = if 2 ≤ namelen ∧ x ≠ [] then 1 else 0 := by
  unfold retOf copyOut
  rw [List.length_take]
  cases x with
  | nil => simp
  | cons a l =>
    by_cases h : 2 ≤ namelen
    · have h1 : 0 < (namelen - 1) ⊓ (a :: l).length := by
        simp only [List.length_cons]; omega
      rw [if_pos h1, if_pos ⟨h, by simp⟩]
    · have h1 : ¬ 0 < (namelen - 1) ⊓ (a :: l).length := by
        simp only [List.length_cons]; omega
      rw [if_neg h1, if_neg (fun hh => h hh.1)]

theorem copyOut_fits (x : CStr) (namelen : Nat) (h : x.length < namelen) :
    copyOut x namelen = x := by
  unfold copyOut
  exact List.take_of_length_le (by omega)

theorem slots_map_snd (fs : Linux.SysFs) (hdr : Header) (l : List Linux.Dirent) :
    (Linux.slots fs hdr l).map Prod.snd
      = ((l.filter (Linux.isAnchor fs hdr)).map (fun d => Linux.ttyNames fs d.d_name)).flatten := by
  induction l with
  | nil => rfl
  | cons d rest ih =>
    unfold Linux.slots
    by_cases ha : Linux.isAnchor fs hdr d = true
    · simp [ha, ih, Function.comp_def]
    · simp [ha, ih]

theorem win_slots_wellFormed (reg : Win32.Registry) (hdr : Header) (l : List CStr)
    (hcomm : reg.openKey Win32.SERIALCOMM = true)
    (h : ∀ sub ∈ l, Win32.sane reg hdr sub = true
      ∧ Win32.liveCount reg (Win32.gdbName reg hdr sub) = 1) :
    Win32.slots reg hdr l
      = l.map (fun sub => (sub ++ Win32.DEVPARAMS, Win32.gdbName reg hdr sub)) := by
  induction l with
  | nil => rfl
  | cons sub rest ih =>
    have h1 := h sub (List.mem_cons_self _ _)
    rw [Win32.slots, ih (fun x hx => h x (List.mem_cons_of_mem _ hx))]
    simp [h1.1, h1.2, hcomm]

theorem linux_slots_wellFormed (fs : Linux.SysFs) (hdr : Header) (l : List Linux.Dirent)
    (h : ∀ d ∈ l.filter (Linux.isAnchor fs hdr), (Linux.ttyNames fs d.d_name).length = 1) :
    Linux.slots fs hdr l
      = (l.filter (Linux.isAnchor fs hdr)).map
          (fun d => (d.d_name, (Linux.ttyNames fs d.d_name).headD [])) := by
  induction l with
  | nil => rfl
  | cons d rest ih =>
    rw [Linux.slots]
    by_cases ha : Linux.isAnchor fs hdr d = true
    · have h1 := h d (by simp [ha])
      rw [ih (fun x hx => h x (by
        rw [List.filter_cons_of_pos ha]; exact List.mem_cons_of_mem _ hx))]
      rcases hl : Linux.ttyNames fs d.d_name with _ | ⟨t, r⟩
      · rw [hl] at h1; simp at h1
      · rw [hl] at h1
        have hr : r = [] := by simpa using h1
        subst hr
        simp [ha, hl]
    · rw [ih (fun x hx => h x (by rw [List.filter_cons_of_neg ha]; exact hx))]
      simp [ha]

theorem hasDigit_ne_nil (b : CStr) (h : Win32.hasDigit b = true) : b ≠ [] := by
  intro hb
  subst hb
  simp [Win32.hasDigit] at h

theorem dev_ne_nil (t : CStr) : Linux.dev t ≠ [] := by
  unfold Linux.dev
  intro h
  have := congrArg List.length h
  simp at this

theorem win_slots_cut (reg : Win32.Registry) (hdr : Header) (pre post : List CStr) (x : CStr)
    (hx : Win32.sane reg hdr x = false) :
    Win32.slots reg hdr (pre ++ x :: post) = Win32.slots reg hdr pre := by
  induction pre with
  | nil => simp [Win32.slots, hx]
  | cons sub rest ih =>
    rw [List.cons_append, Win32.slots, Win32.slots, ih]

theorem win_slots_filter_live (reg : Win32.Registry) (hdr : Header) (l : List CStr)
    (hcomm : reg.openKey Win32.SERIALCOMM = true)
    (h : ∀ sub ∈ l, Win32.sane reg hdr sub = true
      ∧ Win32.liveCount reg (Win32.gdbName reg hdr sub) ≤ 1) :
    Win32.slots reg hdr l
      = (l.filter (Win32.live reg hdr)).map
          (fun sub => (sub ++ Win32.DEVPARAMS, Win32.gdbName reg hdr sub)) := by
  induction l with
  | nil => rfl
  | cons sub rest ih =>
    have h1 := h sub (List.mem_cons_self _ _)
    rw [Win32.slots, ih (fun x hx => h x (List.mem_cons_of_mem _ hx))]
    rcases Nat.le_one_iff_eq_zero_or_eq_one.mp h1.2 with h0 | h0
    · simp [h1.1, hcomm, h0, Win32.live]
    · simp [h1.1, hcomm, h0, Win32.live]

theorem win_slots_drop_stale (reg : Win32.Registry) (hdr : Header) (l : List CStr) :
    Win32.slots reg hdr (l.filter (fun sub => !Win32.staleWithDigit reg hdr sub))
      = Win32.slots reg hdr l := by
  induction l with
  | nil => rfl
  | cons sub rest ih =>
    by_cases hs : Win32.staleWithDigit reg hdr sub = true
    · rw [List.filter_cons_of_neg (by simp [hs]), ih, Win32.slots]
      simp only [Win32.staleWithDigit, Bool.and_eq_true, beq_iff_eq] at hs
      by_cases hcomm : reg.openKey Win32.SERIALCOMM = true
      · simp [hs.1, hs.2, hcomm]
      · simp only [hcomm, Bool.and_false, Bool.false_eq_true, if_false]
        cases rest with
        | nil => rfl
        | cons y ys => simp [Win32.slots, hcomm]
    · rw [List.filter_cons_of_pos (by simp [hs]), Win32.slots, Win32.slots, ih]

theorem win_slots_congr (reg reg2 : Win32.Registry) (hdr : Header)
    (hopen : reg2.openKey = reg.openKey) (hquery : reg2.queryValue = reg.queryValue)
    (hval : reg2.enumValue = reg.enumValue) (l : List CStr) :
    Win32.slots reg2 hdr l = Win32.slots reg hdr l := by
  induction l with
  | nil => rfl
  | cons sub rest ih =>
    rw [Win32.slots, Win32.slots, ih]
    simp only [Win32.sane, Win32.readable, Win32.gdbName, Win32.gdbRead, Win32.liveCount,
      hopen, hquery, hval]

/-- Two registries that differ only in the enumeration of the candidates, with the same
occurrence slots, give the same results. -/
theorem win_find_bmp_congr (reg reg2 : Win32.Registry) (hdr : Header) (k iface : Int)
    (namelen : Nat) (hopen : reg2.openKey = reg.openKey) (hquery : reg2.queryValue = reg.queryValue)
    (hval : reg2.enumValue = reg.enumValue)
    (hslots : Win32.slots reg hdr (reg2.enumKey (Win32.regpath hdr BMP_IF_GDB))
      = Win32.slots reg hdr (reg.enumKey (Win32.regpath hdr BMP_IF_GDB))) :
    Win32.find_bmp reg2 hdr k iface namelen = Win32.find_bmp reg hdr k iface namelen := by
  by_cases hn : namelen = 0
  · simp [Win32.find_bmp, hn]
  · by_cases hk : k < 0
    · rw [win_find_bmp_neg _ _ _ _ _ (by omega) hk, win_find_bmp_neg _ _ _ _ _ (by omega) hk]
    · by_cases hsec : reg.openKey (Win32.regpath hdr BMP_IF_GDB) = true
      · rw [win_find_bmp_eq reg hdr k iface namelen (by omega) (by omega) hsec,
          win_find_bmp_eq reg2 hdr k iface namelen (by omega) (by omega) (by rw [hopen]; exact hsec),
          win_slots_congr reg reg2 hdr hopen hquery hval, hslots]
        have hres : ∀ subkey, Win32.resolveSibling reg2 hdr subkey iface namelen
            = Win32.resolveSibling reg hdr subkey iface namelen := by
          intro subkey
          simp only [Win32.resolveSibling, hopen, hquery]
        rcases (Win32.slots reg hdr (reg.enumKey (Win32.regpath hdr BMP_IF_GDB)))[k.toNat]?
          with _ | slot
        · rfl
        · simp only [hres]
      · have hsec2 : ¬ reg2.openKey (Win32.regpath hdr BMP_IF_GDB) = true := by
          rw [hopen]; exact hsec
        simp [Win32.find_bmp, hn, hsec, hsec2]

/-! ## The interface patch -/

theorem toChar_digit (i : Int) (h0 : 0 ≤ i) (h9 : i ≤ 9) :
    toChar (i + 48) ≠ NUL ∧ charInt (toChar (i + 48)) = i + 48 := by
  interval_cases i <;> decide

theorem get?_mid (A T : CStr) (b : Char) : (A ++ b :: T).get? A.length = some b := by
  rw [List.get?_eq_getElem?, List.getElem?_append_right (le_refl _)]
  simp

theorem get?_prev (A T : CStr) (a b : Char) :
    ((A ++ [a]) ++ b :: T).get? ((A ++ [a]).length - 1) = some a := by
  have h : (A ++ [a]) ++ b :: T = A ++ a :: (b :: T) := by simp
  have h2 : (A ++ [a]).length - 1 = A.length := by simp
  rw [h, h2]
  exact get?_mid A (b :: T) a

theorem get?_next (A T : CStr) (b c : Char) :
    (A ++ b :: c :: T).get? (A.length + 1) = some c := by
  have h : A ++ b :: c :: T = (A ++ [b]) ++ c :: T := by simp
  have h2 : A.length + 1 = (A ++ [b]).length := by simp
  rw [h, h2]
  exact get?_mid (A ++ [b]) T c

theorem set_mid (A T : CStr) (b c : Char) : (A ++ b :: T).set A.length c = A ++ c :: T := by
  simp [List.set_append]

theorem take_mid (A T : CStr) : (A ++ T).take A.length = A := by
  simp

theorem tty_eq : "/tty".toList = Char.ofNat 47 :: "tty".toList := by decide

theorem ttyPath_eq (d : CStr) :
    Linux.ttyPath d = Linux.SYSFS_ROOT ++ Char.ofNat 47 :: (d ++ "/tty".toList) := by
  unfold Linux.ttyPath
  have h : "/".toList = [Char.ofNat 47] := by decide
  rw [h]
  simp

theorem modaliasPath_eq (d : CStr) :
    Linux.modaliasPath d = Linux.SYSFS_ROOT ++ Char.ofNat 47 :: (d ++ "/modalias".toList) := by
  unfold Linux.modaliasPath
  have h : "/".toList = [Char.ofNat 47] := by decide
  rw [h]
  simp

/-- The first assertion of the sibling lookup pins the last two characters of the
directory name. -/
theorem resolveSibling_asserts (fs : Linux.SysFs) (hdr : Header) (A : CStr) (a b : Char)
    (iface : Int) (namelen : Nat) (r : CStr)
    (h : Linux.resolveSibling fs hdr ((A ++ [a]) ++ b :: "/tty".toList) iface namelen = some r) :
    a = Char.ofNat 46 ∧ b = Char.ofNat 48 := by
  have hlen : ((A ++ [a]) ++ b :: "/tty".toList).length - 5 = (A ++ [a]).length := by
    have : "/tty".toList.length = 4 := by decide
    simp [this]
  have hgt : ((A ++ [a]) ++ b :: "/tty".toList).length > 5 := by
    have : "/tty".toList.length = 4 := by decide
    simp [this]
  have hmid := get?_mid (A ++ [a]) "/tty".toList b
  have hprev := get?_prev A "/tty".toList a b
  unfold Linux.resolveSibling at h
  simp only [hlen, hgt, hmid, hprev, not_true_eq_false, if_false] at h
  by_cases hc : b = Char.ofNat 48 ∧ a = Char.ofNat 46
  · exact ⟨hc.2, hc.1⟩
  · exfalso
    have hc2 : ¬ (some b = some (Char.ofNat 48) ∧ some a = some (Char.ofNat 46)
        ∧ ((A ++ [a]) ++ b :: "/tty".toList).get? ((A ++ [a]).length + 1)
          = some (Char.ofNat 47)) := by
      rintro ⟨h1, h2, _⟩
      exact hc ⟨Option.some.inj h1, Option.some.inj h2⟩
    rw [if_pos hc2] at h
    exact Option.noConfusion h

/-- The sibling lookup returns only for a directory name ending in `.0`. -/
theorem resolveSibling_some (fs : Linux.SysFs) (hdr : Header) (d : CStr) (iface : Int)
    (namelen : Nat) (r : CStr)
    (h : Linux.resolveSibling fs hdr (Linux.ttyPath d) iface namelen = some r) :
    ∃ stem, d = stem ++ [Char.ofNat 46, Char.ofNat 48] := by
  rw [ttyPath_eq] at h
  rcases List.eq_nil_or_concat d with hd | ⟨d1, b, hd⟩
  · subst hd
    exfalso
    have hr : Linux.SYSFS_ROOT ++ Char.ofNat 47 :: ([] ++ "/tty".toList)
        = ("/sys/bus/usb/device".toList ++ [Char.ofNat 115]) ++ Char.ofNat 47 :: "/tty".toList := by
      decide
    rw [hr] at h
    have := (resolveSibling_asserts fs hdr _ _ _ iface namelen r h).2
    revert this
    decide
  · rcases List.eq_nil_or_concat d1 with hd1 | ⟨stem, a, hd1⟩
    · subst hd1
      subst hd
      exfalso
      have hr : Linux.SYSFS_ROOT ++ Char.ofNat 47 :: (List.concat [] b ++ "/tty".toList)
          = (Linux.SYSFS_ROOT ++ [Char.ofNat 47]) ++ b :: "/tty".toList := by
        simp
      rw [hr] at h
      have := (resolveSibling_asserts fs hdr _ _ _ iface namelen r h).1
      revert this
      decide
    · subst hd1
      subst hd
      have hr : Linux.SYSFS_ROOT ++ Char.ofNat 47 :: (List.concat (List.concat stem a) b
            ++ "/tty".toList)
          = ((Linux.SYSFS_ROOT ++ Char.ofNat 47 :: stem) ++ [a]) ++ b :: "/tty".toList := by
        simp
      rw [hr] at h
      have hab := resolveSibling_asserts fs hdr _ _ _ iface namelen r h
      refine ⟨stem, ?_⟩
      rw [hab.1, hab.2]
      simp

/-- The sibling lookup for a single-digit interface, from a directory name ending in `.0`:
the `tty` directory, respectively the `modalias` file, of the directory whose name has the
digit of the interface in the last position. -/
theorem resolveSibling_digit (fs : Linux.SysFs) (hdr : Header) (stem : CStr) (iface : Int)
    (namelen : Nat) (h0 : 0 ≤ iface) (h9 : iface ≤ 9) :
    Linux.resolveSibling fs hdr (Linux.ttyPath (stem ++ [Char.ofNat 46, Char.ofNat 48])) iface
        namelen
      = if iface = hdr.BMP_IF_UART then
          (match fs.opendir (Linux.ttyPath (Linux.siblingName stem iface)) with
            | none => some []
            | some ents => some (Linux.scanUart namelen ents []))
        else if fs.access (Linux.modaliasPath (Linux.siblingName stem iface)) = true then
          some (Linux.strlcpy (Linux.siblingName stem iface) namelen)
        else some [] := by
  obtain ⟨hnul, hci⟩ := toChar_digit iface h0 h9
  have hT : "/tty".toList.length = 4 := by decide
  have hp : Linux.ttyPath (stem ++ [Char.ofNat 46, Char.ofNat 48])
      = ((Linux.SYSFS_ROOT ++ Char.ofNat 47 :: stem) ++ [Char.ofNat 46])
        ++ Char.ofNat 48 :: "/tty".toList := by
    rw [ttyPath_eq]; simp
  have hs : Linux.ttyPath (Linux.siblingName stem iface)
      = ((Linux.SYSFS_ROOT ++ Char.ofNat 47 :: stem) ++ [Char.ofNat 46])
        ++ toChar (iface + 48) :: "/tty".toList := by
    rw [ttyPath_eq, Linux.siblingName]; simp
  have hm : Linux.modaliasPath (Linux.siblingName stem iface)
      = (((Linux.SYSFS_ROOT ++ Char.ofNat 47 :: stem) ++ [Char.ofNat 46])
        ++ [toChar (iface + 48)]) ++ "/modalias".toList := by
    rw [modaliasPath_eq, Linux.siblingName]; simp
  have hdrop : List.drop (Linux.SYSFS_ROOT.length + 1)
      (((Linux.SYSFS_ROOT ++ Char.ofNat 47 :: stem) ++ [Char.ofNat 46]) ++ [toChar (iface + 48)])
      = Linux.siblingName stem iface := by
    have h1 : ((Linux.SYSFS_ROOT ++ Char.ofNat 47 :: stem) ++ [Char.ofNat 46])
        ++ [toChar (iface + 48)]
        = (Linux.SYSFS_ROOT ++ [Char.ofNat 47]) ++ Linux.siblingName stem iface := by
      unfold Linux.siblingName; simp
    have h2 : Linux.SYSFS_ROOT.length + 1 = (Linux.SYSFS_ROOT ++ [Char.ofNat 47]).length := by
      simp
    rw [h1, h2, List.drop_left]
  rw [hp, hs, hm]
  generalize (Linux.SYSFS_ROOT ++ Char.ofNat 47 :: stem) = A at *
  generalize hc : toChar (iface + 48) = c at *
  have hlen : ((A ++ [Char.ofNat 46]) ++ Char.ofNat 48 :: "/tty".toList).length - 5
      = (A ++ [Char.ofNat 46]).length := by simp [hT]
  have hgt : ((A ++ [Char.ofNat 46]) ++ Char.ofNat 48 :: "/tty".toList).length > 5 := by
    simp [hT]
  have hmid := get?_mid (A ++ [Char.ofNat 46]) "/tty".toList (Char.ofNat 48)
  have hprev := get?_prev A "/tty".toList (Char.ofNat 46) (Char.ofNat 48)
  have hnext : ((A ++ [Char.ofNat 46]) ++ Char.ofNat 48 :: "/tty".toList).get?
      ((A ++ [Char.ofNat 46]).length + 1) = some (Char.ofNat 47) := by
    rw [tty_eq]; exact get?_next _ _ _ _
  have hset : patchAt ((A ++ [Char.ofNat 46]) ++ Char.ofNat 48 :: "/tty".toList)
      (A ++ [Char.ofNat 46]).length c = (A ++ [Char.ofNat 46]) ++ c :: "/tty".toList := by
    unfold patchAt
    rw [if_neg hnul, set_mid]
  unfold Linux.resolveSibling
  simp only [hlen, hgt, hmid, hprev, hnext, and_self, not_true_eq_false, if_false, hc, hset]
  by_cases hu : iface = hdr.BMP_IF_UART
  · simp only [hu, if_true]
  · simp only [hu, if_false]
    have hlen2 : ((A ++ [Char.ofNat 46]) ++ c :: "/tty".toList).length - 4
        = ((A ++ [Char.ofNat 46]) ++ [c]).length := by simp [hT]
    have hgt2 : ((A ++ [Char.ofNat 46]) ++ c :: "/tty".toList).length > 4 := by simp [hT]
    have hsplit : (A ++ [Char.ofNat 46]) ++ c :: "/tty".toList
        = ((A ++ [Char.ofNat 46]) ++ [c]) ++ Char.ofNat 47 :: "tty".toList := by
      rw [tty_eq]; simp
    have hmid2 : ((A ++ [Char.ofNat 46]) ++ c :: "/tty".toList).get?
        ((A ++ [Char.ofNat 46]) ++ [c]).length = some (Char.ofNat 47) := by
      rw [hsplit]; exact get?_mid _ _ _
    have hprev2 : ((A ++ [Char.ofNat 46]) ++ c :: "/tty".toList).get?
        (((A ++ [Char.ofNat 46]) ++ [c]).length - 1) = some c := by
      rw [hsplit]; exact get?_prev _ _ _ _
    have htake : ((A ++ [Char.ofNat 46]) ++ c :: "/tty".toList).take
        ((A ++ [Char.ofNat 46]) ++ [c]).length = (A ++ [Char.ofNat 46]) ++ [c] := by
      rw [hsplit]; exact take_mid _ _
    simp only [hlen2, hgt2, hmid2, hprev2, htake, Option.map_some', hci, and_self,
      not_true_eq_false, if_false, hdrop]

theorem strchrIdx_append (sub rest : CStr) (h : BSLASH ∉ sub) :
    strchrIdx BSLASH (sub ++ BSLASH :: rest) = some sub.length := by
  induction sub with
  | nil => simp [strchrIdx]
  | cons x xs ih =>
    have hx : x ≠ BSLASH := fun hx => h (by simp [hx])
    have hxs : BSLASH ∉ xs := fun hxs => h (List.mem_cons_of_mem _ hxs)
    simp [strchrIdx, hx, ih hxs]

theorem DEVPARAMS_eq : Win32.DEVPARAMS = BSLASH :: "Device Parameters".toList := by decide

theorem patchSubkey_digit (sub : CStr) (iface : Int) (hne : sub ≠ []) (hb : BSLASH ∉ sub)
    (h0 : 0 ≤ iface) (h9 : iface ≤ 9) :
    Win32.patchSubkey (sub ++ Win32.DEVPARAMS) iface
      = some (Win32.siblingName sub iface ++ Win32.DEVPARAMS) := by
  obtain ⟨hnul, _⟩ := toChar_digit iface h0 h9
  obtain ⟨stem, c0, hsub⟩ : ∃ stem c0, sub = stem ++ [c0] :=
    ⟨sub.dropLast, sub.getLast hne, (List.dropLast_append_getLast hne).symm⟩
  subst hsub
  unfold Win32.patchSubkey Win32.siblingName
  rw [DEVPARAMS_eq, strchrIdx_append _ _ hb]
  have hl : (stem ++ [c0]).length = stem.length + 1 := by simp
  rw [hl]
  simp only [patchAt, if_neg hnul, List.dropLast_concat]
  have h1 : stem ++ [c0] ++ BSLASH :: "Device Parameters".toList
      = stem ++ c0 :: (BSLASH :: "Device Parameters".toList) := by simp
  rw [h1, set_mid]
  simp

theorem win_slots_mem (reg : Win32.Registry) (hdr : Header) (l : List CStr) (slot : CStr × CStr)
    (h : slot ∈ Win32.slots reg hdr l) :
    ∃ sub ∈ l, slot = (sub ++ Win32.DEVPARAMS, Win32.gdbName reg hdr sub)
      ∧ Win32.sane reg hdr sub = true := by
  induction l with
  | nil => simp [Win32.slots] at h
  | cons x rest ih =>
    rw [Win32.slots] at h
    by_cases hc : (Win32.sane reg hdr x && reg.openKey Win32.SERIALCOMM) = true
    · rw [if_pos hc] at h
      rcases List.mem_append.mp h with h1 | h1
      · have := (List.mem_replicate.mp h1).2
        simp only [Bool.and_eq_true] at hc
        exact ⟨x, List.mem_cons_self _ _, this, hc.1⟩
      · obtain ⟨sub, hm, he⟩ := ih h1
        exact ⟨sub, List.mem_cons_of_mem _ hm, he⟩
    · rw [if_neg hc] at h
      simp at h

theorem devName_nil (a u : CStr) (namelen : Nat) (h : Linux.devName a namelen = []) :
    Linux.devName u namelen = [] := by
  by_cases hn : 0 < namelen
  · rw [devName_eq _ _ hn] at h ⊢
    have h1 := congrArg List.length h
    unfold copyOut at h1 ⊢
    rw [List.length_take] at h1
    have hl : 0 < (Linux.dev a).length := List.length_pos.mpr (dev_ne_nil a)
    have h2 : namelen - 1 = 0 := by
      simp only [List.length_nil] at h1
      omega
    rw [h2]
    rfl
  · have h0 : namelen = 0 := by omega
    subst h0
    simp [Linux.devName, Linux.strlcat, Linux.strlcpy]

theorem scanUart_stop (namelen : Nat) (l : List Linux.Dirent) (name : CStr) (h : name ≠ []) :
    Linux.scanUart namelen l name = name := by
  cases l with
  | nil => rfl
  | cons d rest =>
    unfold Linux.scanUart
    have : name.length ≠ 0 := by
      intro h0; exact h (List.length_eq_zero.mp h0)
    simp [this]

/-- The loop over the `tty` directory of the UART sibling takes the first qualifying
entry. -/
theorem scanUart_eq (namelen : Nat) (l : List Linux.Dirent) :
    Linux.scanUart namelen l []
      = (match (Linux.quals l).head? with
          | none => []
          | some u => Linux.devName u namelen) := by
  induction l with
  | nil => rfl
  | cons d rest ih =>
    unfold Linux.scanUart
    simp only [List.length_nil, ne_eq, not_true_eq_false, if_false]
    by_cases hq : Linux.qualifies d = true
    · have hqs : Linux.quals (d :: rest) = d.d_name :: Linux.quals rest := by
        simp [Linux.quals, hq]
      rw [hqs]
      simp only [hq, if_true, List.head?_cons]
      by_cases hnil : Linux.devName d.d_name namelen = []
      · rw [hnil, ih]
        rcases (Linux.quals rest).head? with _ | u
        · rfl
        · exact devName_nil _ _ _ hnil
      · exact scanUart_stop namelen rest _ hnil
    · have hqs : Linux.quals (d :: rest) = Linux.quals rest := by
        simp [Linux.quals, hq]
      rw [hqs]
      simp only [hq]
      exact ih

theorem devName_length (u : CStr) (namelen : Nat) (hn : 0 < namelen) :
    (Linux.devName u namelen).length ≤ namelen - 1 := by
  rw [devName_eq _ _ hn]
  unfold copyOut
  rw [List.length_take]
  omega

theorem linux_resolveSibling_length (fs : Linux.SysFs) (hdr : Header) (path : CStr)
    (iface : Int) (namelen : Nat) (hn : 0 < namelen) (r : CStr)
    (h : Linux.resolveSibling fs hdr path iface namelen = some r) :
    r.length ≤ namelen - 1 := by
  unfold Linux.resolveSibling at h
  simp only at h
  split at h
  · exact Option.noConfusion h
  · split at h
    · exact Option.noConfusion h
    · split at h
      · split at h
        · cases h; simp
        · cases h
          rw [scanUart_eq]
          split
          · simp
          · exact devName_length _ _ hn
      · split at h
        · exact Option.noConfusion h
        · split at h
          · exact Option.noConfusion h
          · split at h
            · cases h
              unfold Linux.strlcpy
              rw [List.length_take]
              omega
            · cases h; simp

theorem linux_atSlot_length (fs : Linux.SysFs) (hdr : Header) (iface : Int) (namelen : Nat)
    (hn : 0 < namelen) (slot : CStr × CStr) (r : CStr)
    (h : Linux.atSlot fs hdr iface namelen slot = some r) : r.length ≤ namelen - 1 := by
  unfold Linux.atSlot at h
  split at h
  · exact linux_resolveSibling_length fs hdr _ iface namelen hn r h
  · cases h
    exact devName_length _ _ hn

theorem retOf_ne_zero (name : CStr) : retOf name ≠ 0 ↔ name ≠ [] := by
  unfold retOf
  cases name with
  | nil => simp
  | cons a l => simp

theorem contract_zero (namelen : Nat) : Contract namelen (0, []) := by
  simp [Contract]

theorem contract_retOf (namelen : Nat) (name : CStr) (h : name.length ≤ namelen - 1) :
    Contract namelen (retOf name, name) := by
  refine ⟨h, retOf_ne_zero name, ?_⟩
  intro h0
  by_contra hne
  exact (retOf_ne_zero name).mpr hne h0

theorem copyOut_length (x : CStr) (namelen : Nat) : (copyOut x namelen).length ≤ namelen - 1 := by
  unfold copyOut
  rw [List.length_take]
  omega

theorem win_resolveSibling_contract (reg : Win32.Registry) (hdr : Header) (subkey : CStr)
    (iface : Int) (namelen : Nat) (res : Int × CStr)
    (h : Win32.resolveSibling reg hdr subkey iface namelen = some res) :
    Contract namelen res := by
  unfold Win32.resolveSibling Win32.finish at h
  split at h
  · cases h; exact contract_zero _
  · split at h
    · exact Option.noConfusion h
    · split at h
      · cases h; exact contract_zero _
      · split at h
        · simp only at h
          split at h
          · cases h; exact contract_zero _
          · cases h; exact contract_retOf _ _ (copyOut_length _ _)
        · simp only at h
          split at h
          · cases h; exact contract_zero _
          · cases h; exact contract_retOf _ _ (copyOut_length _ _)

theorem linux_slots_append (fs : Linux.SysFs) (hdr : Header) (a b : List Linux.Dirent) :
    Linux.slots fs hdr (a ++ b) = Linux.slots fs hdr a ++ Linux.slots fs hdr b := by
  induction a with
  | nil => simp [Linux.slots]
  | cons d rest ih => rw [List.cons_append, Linux.slots, Linux.slots, ih, List.append_assoc]

/-- Two file systems that differ only in the enumeration of the root directory, with the
same occurrence slots, give the same results. -/
theorem linux_find_bmp_congr (fs : Linux.SysFs) (hdr : Header) (l : List Linux.Dirent)
    (k iface : Int) (namelen : Nat)
    (hslots : Linux.slots fs hdr l = Linux.slots fs hdr (Linux.rootEntries fs)) :
    Linux.find_bmp (Linux.withRoot fs l) hdr k iface namelen
      = Linux.find_bmp fs hdr k iface namelen := by
  by_cases hn : namelen = 0
  · simp [Linux.find_bmp, hn]
  · by_cases hk : k < 0
    · rw [linux_find_bmp_neg _ _ _ _ _ (by omega) hk, linux_find_bmp_neg _ _ _ _ _ (by omega) hk]
    · rw [linux_find_bmp_eq _ hdr k iface namelen (by omega) (by omega),
        linux_find_bmp_eq fs hdr k iface namelen (by omega) (by omega)]
      have h1 : ∀ x, Linux.slots (Linux.withRoot fs l) hdr x = Linux.slots fs hdr x := by
        intro x
        induction x with
        | nil => rfl
        | cons d rest ih =>
          rw [Linux.slots, Linux.slots, ih]
          rfl
      have h2 : Linux.rootEntries (Linux.withRoot fs l) = l := rfl
      rw [h1, h2, hslots]
      rfl

/-! ## The claims -/

/-- C1: `find_bmp(k, BMP_IF_GDB)` is a list lookup on well-formed fixtures, in both
strategies. Registry: when the section key and the live table open and every candidate is
readable, has a digit in its port name and is listed exactly once in the live table, then
for `0 ≤ k < n` the call returns 1 and writes the part after the last backslash of the
`PortName` of the `k`-th candidate, provided the capacity holds it; for `k < 0` and `k ≥ n`
it returns 0 with an empty output. Sysfs: when every GDB interface directory has a `tty`
directory with exactly one qualifying entry `t`, then for `0 ≤ k < n` the call returns 1 and
writes `"/dev/" ++ t` for the `k`-th such directory, provided the capacity holds it; for
`k < 0` and `k ≥ n` it returns 0 with an empty output. -/
theorem C1_find_bmp_gdb_list_lookup (reg : Win32.Registry) (fs : Linux.SysFs) (hdr : Header)
    (k : Int) (namelen : Nat) (hn : 0 < namelen)
    (hreg : Win32.wellFormed reg hdr = true) (hfs : Linux.wellFormed fs hdr = true) :
    ((∀ sub, 0 ≤ k → (Win32.probes reg hdr)[k.toNat]? = some sub →
        (Win32.gdbName reg hdr sub).length < namelen →
        Win32.find_bmp reg hdr k BMP_IF_GDB namelen = some (1, Win32.gdbName reg hdr sub))
      ∧ (k < 0 ∨ ((Win32.probes reg hdr).length : Int) ≤ k →
        Win32.find_bmp reg hdr k BMP_IF_GDB namelen = some (0, [])))
    ∧ ((∀ d t, 0 ≤ k → (Linux.probes fs hdr)[k.toNat]? = some d →
        Linux.ttyNames fs d.d_name = [t] → (Linux.dev t).length < namelen →
        Linux.find_bmp fs hdr k BMP_IF_GDB namelen = some (1, Linux.dev t))
      ∧ (k < 0 ∨ ((Linux.probes fs hdr).length : Int) ≤ k →
        Linux.find_bmp fs hdr k BMP_IF_GDB namelen = some (0, []))) := by
  simp only [Win32.wellFormed, Bool.and_eq_true, List.all_eq_true, beq_iff_eq] at hreg
  simp only [Linux.wellFormed, List.all_eq_true, beq_iff_eq] at hfs
  obtain ⟨⟨hsec, hcomm⟩, hall⟩ := hreg
  have hslots := win_slots_wellFormed reg hdr (Win32.probes reg hdr) hcomm hall
  have hslots2 := linux_slots_wellFormed fs hdr (Linux.rootEntries fs) hfs
  refine ⟨⟨?_, ?_⟩, ?_, ?_⟩
  · intro sub hk hsub hfit
    rw [win_find_bmp_eq reg hdr k _ namelen hn hk hsec]
    have : (Win32.slots reg hdr (reg.enumKey (Win32.regpath hdr BMP_IF_GDB)))[k.toNat]?
        = some (sub ++ Win32.DEVPARAMS, Win32.gdbName reg hdr sub) := by
      unfold Win32.probes at hslots hsub
      rw [hslots, List.getElem?_map, hsub]
      rfl
    rw [this]
    simp only [if_true]
    rw [retOf_copyOut, copyOut_fits _ _ hfit]
    have hne : Win32.gdbName reg hdr sub ≠ [] := by
      have hs := (hall sub (List.getElem?_mem hsub)).1
      simp only [Win32.sane, Bool.and_eq_true] at hs
      exact hasDigit_ne_nil _ hs.2
    have h2 : 2 ≤ namelen := by
      have : 0 < (Win32.gdbName reg hdr sub).length := List.length_pos.mpr hne
      omega
    rw [if_pos ⟨h2, hne⟩]
  · intro hk
    rcases hk with hk | hk
    · exact win_find_bmp_neg reg hdr k _ namelen hn hk
    · have hk0 : 0 ≤ k := by omega
      rw [win_find_bmp_eq reg hdr k _ namelen hn hk0 hsec]
      have : (Win32.slots reg hdr (reg.enumKey (Win32.regpath hdr BMP_IF_GDB)))[k.toNat]?
          = none := by
        unfold Win32.probes at hslots hk
        rw [hslots, List.getElem?_eq_none_iff, List.length_map]
        omega
      rw [this]
  · intro d t hk hd ht hfit
    rw [linux_find_bmp_eq fs hdr k _ namelen hn hk]
    have : (Linux.slots fs hdr (Linux.rootEntries fs))[k.toNat]? = some (d.d_name, t) := by
      unfold Linux.probes at hd
      rw [hslots2, List.getElem?_map, hd]
      simp [ht]
    rw [this]
    simp only [Linux.atSlot, ne_eq, not_true_eq_false, and_false, if_false, Option.map_some']
    rw [devName_eq _ _ hn, retOf_copyOut, copyOut_fits _ _ hfit]
    have h2 : 2 ≤ namelen := by
      have : 0 < (Linux.dev t).length := List.length_pos.mpr (dev_ne_nil t)
      omega
    rw [if_pos ⟨h2, dev_ne_nil t⟩]
  · intro hk
    rcases hk with hk | hk
    · exact linux_find_bmp_neg fs hdr k _ namelen hn hk
    · have hk0 : 0 ≤ k := by omega
      rw [linux_find_bmp_eq fs hdr k _ namelen hn hk0]
      have : (Linux.slots fs hdr (Linux.rootEntries fs))[k.toNat]? = none := by
        unfold Linux.probes at hk
        rw [hslots2, List.getElem?_eq_none_iff, List.length_map]
        omega
      rw [this]

/-- Witness of C1: the second of the two probes of the fixtures `regTwo` and `sysTwo`. -/
theorem C1_find_bmp_gdb_list_lookup_witness :
    Win32.find_bmp regTwo bmpHdr 1 BMP_IF_GDB 64 = some (1, "COM7".toList)
      ∧ Win32.find_bmp regTwo bmpHdr 2 BMP_IF_GDB 64 = some (0, [])
      ∧ Linux.find_bmp sysTwo bmpHdr 1 BMP_IF_GDB 64 = some (1, "/dev/ttyACM2".toList)
      ∧ Linux.find_bmp sysTwo bmpHdr 2 BMP_IF_GDB 64 = some (0, []) :=
  ⟨(C1_find_bmp_gdb_list_lookup regTwo sysTwo bmpHdr 1 64 (by decide) (by decide)
      (by decide)).1.1 "B&0000".toList (by decide) (by decide) (by decide),
    (C1_find_bmp_gdb_list_lookup regTwo sysTwo bmpHdr 2 64 (by decide) (by decide)
      (by decide)).1.2 (by decide),
    (C1_find_bmp_gdb_list_lookup regTwo sysTwo bmpHdr 1 64 (by decide) (by decide)
      (by decide)).2.1 (lnk "1-2:1.0") "ttyACM2".toList (by decide) (by decide) (by decide)
      (by decide),
    (C1_find_bmp_gdb_list_lookup regTwo sysTwo bmpHdr 2 64 (by decide) (by decide)
      (by decide)).2.2 (by decide)⟩

/-- C10: in the sysfs strategy the occurrence counter advances once per qualifying entry of
an anchor's `tty` directory. For every fixture and every `k ≥ 0`, `find_bmp(k, BMP_IF_GDB)`
writes `"/dev/"` plus the `k`-th element of the concatenation, in enumeration order, of the
qualifying `tty` entries of all matching GDB interface directories (cut to the capacity, and
returning 1 as soon as the capacity holds a character), and returns 0 with an empty output
when the concatenation has no `k`-th element. -/
theorem C10_sysfs_counts_tty_entries (fs : Linux.SysFs) (hdr : Header) (k : Int)
    (namelen : Nat) (hn : 0 < namelen) (hk : 0 ≤ k) :
    Linux.find_bmp fs hdr k BMP_IF_GDB namelen
      = (match (((Linux.rootEntries fs).filter (Linux.isAnchor fs hdr)).map
            (fun d => Linux.ttyNames fs d.d_name)).flatten[k.toNat]? with
          | some t => some (if 2 ≤ namelen then 1 else 0, copyOut (Linux.dev t) namelen)
          | none => some (0, [])) := by
  rw [linux_find_bmp_eq fs hdr k _ namelen hn hk, ← slots_map_snd, List.getElem?_map]
  rcases (Linux.slots fs hdr (Linux.rootEntries fs))[k.toNat]? with _ | slot
  · rfl
  · simp only [Linux.atSlot, ne_eq, not_true_eq_false, and_false, if_false, Option.map_some']
    rw [devName_eq _ _ hn, retOf_copyOut]
    simp [dev_ne_nil]

/-- Witness of C10: an anchor with two qualifying `tty` entries takes two slots. -/
theorem C10_sysfs_counts_tty_entries_witness :
    Linux.find_bmp sysDouble bmpHdr 1 BMP_IF_GDB 64 = some (1, "/dev/ttyACM1".toList)
      ∧ Linux.find_bmp sysDouble bmpHdr 2 BMP_IF_GDB 64 = some (1, "/dev/ttyACM2".toList) :=
  ⟨C10_sysfs_counts_tty_entries sysDouble bmpHdr 1 64 (by decide) (by decide),
    C10_sysfs_counts_tty_entries sysDouble bmpHdr 2 64 (by decide) (by decide)⟩

/-- C2, the claim fails: in `regDigitless` the first candidate whose port name holds a digit
and is live is `Y&0000` on `COM3`, enumerated after a candidate on `COMX`; the claim has
`find_bmp(0, BMP_IF_GDB)` return `COM3`, the code returns 0 with an empty output. -/
theorem C2_digitless_candidate_ends_scan :
    Win32.probes regDigitless bmpHdr = ["X&0000".toList, "Y&0000".toList]
      ∧ Win32.hasDigit (Win32.gdbName regDigitless bmpHdr "X&0000".toList) = false
      ∧ ((Win32.probes regDigitless bmpHdr).filter (fun sub =>
            Win32.hasDigit (Win32.gdbName regDigitless bmpHdr sub)
              && Win32.live regDigitless bmpHdr sub))[0]? = some "Y&0000".toList
      ∧ Win32.gdbName regDigitless bmpHdr "Y&0000".toList = "COM3".toList
      ∧ Win32.find_bmp regDigitless bmpHdr 0 BMP_IF_GDB 64 = some (0, [])
      ∧ Win32.find_bmp regDigitless bmpHdr 0 BMP_IF_GDB 64 ≠ some (1, "COM3".toList) := by
  decide

/-- C2, amended: a candidate `x` whose GDB port name holds no digit ends the scan. With the
candidates `pre` enumerated before it readable, with a digit in their port names and listed
at most once in the live table, `find_bmp(k, BMP_IF_GDB)` for `k ≥ 0` writes the port name of
the `k`-th live candidate of `pre` (cut to the capacity), and returns 0 with an empty output
when `pre` has no `k`-th live candidate, whatever is enumerated after `x`. -/
theorem C2_amended_digitless_candidate (reg : Win32.Registry) (hdr : Header)
    (pre post : List CStr) (x : CStr) (k : Int) (namelen : Nat)
    (hn : 0 < namelen) (hk : 0 ≤ k)
    (hsec : reg.openKey (Win32.regpath hdr BMP_IF_GDB) = true)
    (hcomm : reg.openKey Win32.SERIALCOMM = true)
    (henum : Win32.probes reg hdr = pre ++ x :: post)
    (hpre : ∀ sub ∈ pre, Win32.sane reg hdr sub = true
      ∧ Win32.liveCount reg (Win32.gdbName reg hdr sub) ≤ 1)
    (hx : Win32.hasDigit (Win32.gdbName reg hdr x) = false) :
    Win32.find_bmp reg hdr k BMP_IF_GDB namelen
      = (match (pre.filter (Win32.live reg hdr))[k.toNat]? with
          | some sub =>
            some (if 2 ≤ namelen then 1 else 0, copyOut (Win32.gdbName reg hdr sub) namelen)
          | none => some (0, [])) := by
  rw [win_find_bmp_eq reg hdr k _ namelen hn hk hsec]
  unfold Win32.probes at henum
  have hsx : Win32.sane reg hdr x = false := by simp [Win32.sane, hx]
  rw [henum, win_slots_cut reg hdr pre post x hsx, win_slots_filter_live reg hdr pre hcomm hpre,
    List.getElem?_map]
  rcases hg : (pre.filter (Win32.live reg hdr))[k.toNat]? with _ | sub
  · rfl
  · simp only [Option.map_some', if_true]
    rw [retOf_copyOut]
    have hmem : sub ∈ pre := (List.mem_filter.mp (List.getElem?_mem hg)).1
    have hs := (hpre sub hmem).1
    simp only [Win32.sane, Bool.and_eq_true] at hs
    simp [hasDigit_ne_nil _ hs.2]

/-- Witness of the amended C2: in `regStale` the candidate `D&0000` is on `COMX`; before it
the live candidates are `A&0000` and `C&0000`. -/
theorem C2_amended_digitless_candidate_witness :
    Win32.find_bmp regStale bmpHdr 1 BMP_IF_GDB 64 = some (1, "COM7".toList)
      ∧ Win32.find_bmp regStale bmpHdr 2 BMP_IF_GDB 64 = some (0, []) :=
  ⟨C2_amended_digitless_candidate regStale bmpHdr
      ["A&0000".toList, "B&0000".toList, "C&0000".toList] ["E&0000".toList] "D&0000".toList
      1 64 (by decide) (by decide) (by decide) (by decide) (by decide) (by decide) (by decide),
    C2_amended_digitless_candidate regStale bmpHdr
      ["A&0000".toList, "B&0000".toList, "C&0000".toList] ["E&0000".toList] "D&0000".toList
      2 64 (by decide) (by decide) (by decide) (by decide) (by decide) (by decide) (by decide)⟩

/-- C3, the code at the failing input: the UART port name stored as `\\\\.\\COM4` is written
with its prefix, although the GDB port name stored as `\\\\.\\COM3` is written as `COM3`. -/
theorem C3_uart_name_keeps_prefix :
    Win32.find_bmp regPrefixed bmpHdr 0 bmpHdr.BMP_IF_UART 64 = some (1, "\\\\.\\COM4".toList)
      ∧ afterLast BSLASH "\\\\.\\COM4".toList = "COM4".toList
      ∧ Win32.find_bmp regPrefixed bmpHdr 0 BMP_IF_GDB 64 = some (1, "COM3".toList) := by
  decide

/-- C4, the claim fails: in `regDigitless` the candidate `X&0000` is stale (`COMX` is not
live); with it removed `find_bmp(0, BMP_IF_GDB)` returns `COM3`, with it in place the call
returns 0 with an empty output. -/
theorem C4_stale_digitless_candidate_differs :
    Win32.stale regDigitless bmpHdr "X&0000".toList = true
      ∧ Win32.find_bmp regDigitless bmpHdr 0 BMP_IF_GDB 64 = some (0, [])
      ∧ Win32.find_bmp
          (Win32.withSubkeys regDigitless
            ((Win32.probes regDigitless bmpHdr).filter
              (fun sub => !Win32.stale regDigitless bmpHdr sub)))
          bmpHdr 0 BMP_IF_GDB 64 = some (1, "COM3".toList)
      ∧ Win32.find_bmp regDigitless bmpHdr 0 BMP_IF_GDB 64
        ≠ Win32.find_bmp
            (Win32.withSubkeys regDigitless
              ((Win32.probes regDigitless bmpHdr).filter
                (fun sub => !Win32.stale regDigitless bmpHdr sub)))
            bmpHdr 0 BMP_IF_GDB 64 := by
  decide

/-- C4, amended: a candidate whose `PortName` is read, holds a digit after its last backslash
and is not the name of any value of the live table is excluded from the occurrence count and
never returned: for every occurrence (and interface and capacity) `find_bmp` gives the
result it gives on the fixture with all such candidates removed from the enumeration. -/
theorem C4_amended_stale_candidates_skipped (reg : Win32.Registry) (hdr : Header)
    (k iface : Int) (namelen : Nat) :
    Win32.find_bmp reg hdr k iface namelen
      = Win32.find_bmp
          (Win32.withSubkeys reg
            ((Win32.probes reg hdr).filter (fun sub => !Win32.staleWithDigit reg hdr sub)))
          hdr k iface namelen := by
  symm
  apply win_find_bmp_congr
  · rfl
  · rfl
  · rfl
  · exact win_slots_drop_stale reg hdr _

/-- C9: in the registry strategy, once the anchor of occurrence `k` is found and the sibling
key of an interface other than GDB and UART opens, a read of `DeviceInterfaceGUIDs` that
reports success, "more data" or "not found" does not fail the call: the string left in the
zero-initialised buffer is written, cut to the capacity, and the call returns 1 exactly
when that is non-empty; with any other status the call returns 0 with an empty output. -/
theorem C9_guid_read_status (reg : Win32.Registry) (hdr : Header) (k iface : Int)
    (namelen : Nat) (subkey basename sibling : CStr)
    (hn : 0 < namelen)
    (hsec : reg.openKey (Win32.regpath hdr BMP_IF_GDB) = true)
    (hanchor : Win32.scanDevices reg (Win32.regpath hdr BMP_IF_GDB) (Win32.probes reg hdr) k
      = some (subkey, basename))
    (hgdb : iface ≠ BMP_IF_GDB) (huart : iface ≠ hdr.BMP_IF_UART)
    (hisec : reg.openKey (Win32.regpath hdr iface) = true)
    (hpatch : Win32.patchSubkey subkey iface = some sibling)
    (hopen : reg.openKey (Win32.subPath (Win32.regpath hdr iface) sibling) = true) :
    ((reg.queryValue (Win32.subPath (Win32.regpath hdr iface) sibling) Win32.GUIDS).stat
          = Win32.LStatus.ERROR_SUCCESS
        ∨ (reg.queryValue (Win32.subPath (Win32.regpath hdr iface) sibling) Win32.GUIDS).stat
          = Win32.LStatus.ERROR_MORE_DATA
        ∨ (reg.queryValue (Win32.subPath (Win32.regpath hdr iface) sibling) Win32.GUIDS).stat
          = Win32.LStatus.ERROR_FILE_NOT_FOUND →
      Win32.find_bmp reg hdr k iface namelen
        = some (if copyOut (reg.queryValue (Win32.subPath (Win32.regpath hdr iface) sibling)
                  Win32.GUIDS).data namelen ≠ [] then 1 else 0,
            copyOut (reg.queryValue (Win32.subPath (Win32.regpath hdr iface) sibling)
              Win32.GUIDS).data namelen))
    ∧ ((reg.queryValue (Win32.subPath (Win32.regpath hdr iface) sibling) Win32.GUIDS).stat
          = Win32.LStatus.ERROR_OTHER →
      Win32.find_bmp reg hdr k iface namelen = some (0, [])) := by
  have hn0 : namelen ≠ 0 := by omega
  unfold Win32.probes at hanchor
  have hfind : Win32.find_bmp reg hdr k iface namelen
      = Win32.resolveSibling reg hdr subkey iface namelen := by
    unfold Win32.find_bmp
    simp only [hn0, if_false, hsec, Bool.not_true, Bool.false_eq_true, hanchor, hgdb]
  rw [hfind]
  unfold Win32.resolveSibling
  simp only [hisec, Bool.not_true, Bool.false_eq_true, if_false, hpatch, hopen, huart]
  constructor
  · intro hstat
    have hc : ¬ ((reg.queryValue (Win32.subPath (Win32.regpath hdr iface) sibling)
          Win32.GUIDS).stat ≠ Win32.LStatus.ERROR_SUCCESS
        ∧ (reg.queryValue (Win32.subPath (Win32.regpath hdr iface) sibling) Win32.GUIDS).stat
          ≠ Win32.LStatus.ERROR_MORE_DATA
        ∧ (reg.queryValue (Win32.subPath (Win32.regpath hdr iface) sibling) Win32.GUIDS).stat
          ≠ Win32.LStatus.ERROR_FILE_NOT_FOUND) := by
      rintro ⟨h1, h2, h3⟩
      rcases hstat with h | h | h
      · exact h1 h
      · exact h2 h
      · exact h3 h
    rw [if_neg hc]
    unfold Win32.finish retOf
    congr 2
    by_cases hnil : copyOut (reg.queryValue (Win32.subPath (Win32.regpath hdr iface) sibling)
        Win32.GUIDS).data namelen = []
    · simp [hnil]
    · simp [hnil, List.length_pos]
  · intro hstat
    simp [hstat]

/-- Witness of C9: the trace interface of the first probe of `regTwo`. -/
theorem C9_guid_read_status_witness :
    Win32.find_bmp regTwo bmpHdr 0 5 64 = some (1, "\x7bCEC5B3F1\x7d".toList) :=
  (C9_guid_read_status regTwo bmpHdr 0 5 64 ("A&0000".toList ++ Win32.DEVPARAMS) "COM3".toList
    ("A&0005".toList ++ Win32.DEVPARAMS) (by decide) (by decide) (by decide) (by decide)
    (by decide) (by decide) (by decide) (by decide)).1 (by decide)

/-- C7: in both strategies, for every fixture, occurrence, interface and capacity
`namelen ≥ 1`, when `find_bmp` returns, the output holds a string of length at most
`namelen - 1`, the return value is nonzero exactly when that string is non-empty, and so
every return of 0 leaves the output empty. For the GDB interface the call always returns
(no assertion is on its path). -/
theorem C7_output_contract (reg : Win32.Registry) (fs : Linux.SysFs) (hdr : Header)
    (k iface : Int) (namelen : Nat) (hn : 1 ≤ namelen) :
    (∀ res, Win32.find_bmp reg hdr k iface namelen = some res →
        res.2.length ≤ namelen - 1 ∧ (res.1 ≠ 0 ↔ res.2 ≠ []) ∧ (res.1 = 0 → res.2 = []))
    ∧ (∀ res, Linux.find_bmp fs hdr k iface namelen = some res →
        res.2.length ≤ namelen - 1 ∧ (res.1 ≠ 0 ↔ res.2 ≠ []) ∧ (res.1 = 0 → res.2 = []))
    ∧ (Win32.find_bmp reg hdr k BMP_IF_GDB namelen).isSome = true
    ∧ (Linux.find_bmp fs hdr k BMP_IF_GDB namelen).isSome = true := by
  have hn0 : namelen ≠ 0 := by omega
  refine ⟨?_, ?_, ?_, ?_⟩
  · intro res h
    show Contract namelen res
    unfold Win32.find_bmp at h
    simp only [hn0, if_false] at h
    split at h
    · cases h; exact contract_zero _
    · split at h
      · cases h; exact contract_zero _
      · split at h
        · cases h; exact contract_retOf _ _ (copyOut_length _ _)
        · exact win_resolveSibling_contract reg hdr _ iface namelen res h
  · intro res h
    show Contract namelen res
    by_cases hk : k < 0
    · rw [linux_find_bmp_neg fs hdr k iface namelen hn hk] at h
      cases h; exact contract_zero _
    · rw [linux_find_bmp_eq fs hdr k iface namelen hn (by omega)] at h
      split at h
      · cases h; exact contract_zero _
      · rename_i slot _
        rcases ha : Linux.atSlot fs hdr iface namelen slot with _ | name
        · rw [ha] at h; exact Option.noConfusion h
        · rw [ha] at h
          cases h
          exact contract_retOf _ _ (linux_atSlot_length fs hdr iface namelen hn slot name ha)
  · unfold Win32.find_bmp
    simp only [hn0, if_false, if_true]
    split
    · rfl
    · split
      · rfl
      · rfl
  · by_cases hk : k < 0
    · rw [linux_find_bmp_neg fs hdr k _ namelen hn hk]; rfl
    · rw [linux_find_bmp_eq fs hdr k _ namelen hn (by omega)]
      split
      · rfl
      · simp [Linux.atSlot]

/-- Witness of C7: a capacity of four characters on the first probe of `regTwo` and
`sysTwo`. -/
theorem C7_output_contract_witness :
    (∀ res, Win32.find_bmp regTwo bmpHdr 0 5 4 = some res →
        res.2.length ≤ 4 - 1 ∧ (res.1 ≠ 0 ↔ res.2 ≠ []) ∧ (res.1 = 0 → res.2 = []))
    ∧ (∀ res, Linux.find_bmp sysTwo bmpHdr 0 5 4 = some res →
        res.2.length ≤ 4 - 1 ∧ (res.1 ≠ 0 ↔ res.2 ≠ []) ∧ (res.1 = 0 → res.2 = []))
    ∧ Win32.find_bmp regTwo bmpHdr 0 5 4 = some (1, "\x7bCE".toList)
    ∧ Linux.find_bmp sysTwo bmpHdr 0 5 4 = some (1, "1-1".toList) :=
  ⟨(C7_output_contract regTwo sysTwo bmpHdr 0 5 4 (by decide)).1,
    (C7_output_contract regTwo sysTwo bmpHdr 0 5 4 (by decide)).2.1, by decide, by decide⟩

/-- C8, the claim fails in the sysfs strategy: in `sysSkip` the `modalias` of `usb1` cannot
be opened and the `tty` directory of the anchor `1-1:1.0` cannot be opened, both before the
target; the scan goes on and `find_bmp(0, BMP_IF_GDB)` returns the later probe. -/
theorem C8_sysfs_query_failure_is_skipped :
    Linux.rootEntries sysSkip
        = [dirE ".", dirE "..", lnk "usb1", lnk "1-1:1.0", lnk "1-2:1.0", lnk "1-3:1.0"]
      ∧ sysSkip.fopen (Linux.modaliasPath "usb1".toList) = none
      ∧ Linux.isAnchor sysSkip bmpHdr (lnk "1-1:1.0") = true
      ∧ sysSkip.opendir (Linux.ttyPath "1-1:1.0".toList) = none
      ∧ Linux.find_bmp sysSkip bmpHdr 0 BMP_IF_GDB 64 = some (1, "/dev/ttyACM0".toList)
      ∧ Linux.find_bmp sysSkip bmpHdr 0 BMP_IF_GDB 64 ≠ some (0, []) := by
  decide

/-- C8, amended. Registry strategy: when the `Device Parameters` key of a candidate `x` does
not open or its `PortName` is not read, and the target is not found among the candidates
`pre` enumerated before `x`, `find_bmp` returns 0 with an empty output, whatever is
enumerated after `x`. Sysfs strategy: a directory entry whose `modalias` file cannot be
opened, and an anchor whose `tty` directory cannot be opened, are skipped: `find_bmp` gives
the result it gives with that entry removed from the enumeration. -/
theorem C8_amended_query_failures (reg : Win32.Registry) (fs : Linux.SysFs) (hdr : Header)
    (k iface : Int) (namelen : Nat) (pre post : List CStr) (x : CStr)
    (dpre dpost : List Linux.Dirent) (dx : Linux.Dirent)
    (hn : 0 < namelen)
    (henum : Win32.probes reg hdr = pre ++ x :: post)
    (hx : Win32.readable reg hdr x = false)
    (hpre : Win32.scanDevices reg (Win32.regpath hdr BMP_IF_GDB) pre k = none)
    (hroot : fs.root = some (dpre ++ dx :: dpost))
    (hdx : fs.fopen (Linux.modaliasPath dx.d_name) = none
      ∨ fs.opendir (Linux.ttyPath dx.d_name) = none) :
    Win32.find_bmp reg hdr k iface namelen = some (0, [])
      ∧ Linux.find_bmp fs hdr k iface namelen
        = Linux.find_bmp (Linux.withRoot fs (dpre ++ dpost)) hdr k iface namelen := by
  constructor
  · by_cases hk : k < 0
    · exact win_find_bmp_neg reg hdr k iface namelen hn hk
    · by_cases hsec : reg.openKey (Win32.regpath hdr BMP_IF_GDB) = true
      · rw [win_find_bmp_eq reg hdr k iface namelen hn (by omega) hsec]
        unfold Win32.probes at henum
        have hsx : Win32.sane reg hdr x = false := by simp [Win32.sane, hx]
        rw [henum, win_slots_cut reg hdr pre post x hsx,
          ← scanDevices_eq_slots reg hdr pre k (by omega), hpre]
      · have hn0 : namelen ≠ 0 := by omega
        simp [Win32.find_bmp, hn0, hsec]
  · symm
    apply linux_find_bmp_congr
    have hr : Linux.rootEntries fs = dpre ++ dx :: dpost := by
      simp [Linux.rootEntries, hroot]
    have hx0 : Linux.slots fs hdr [dx] = [] := by
      rw [Linux.slots]
      rcases hdx with h | h
      · simp [Linux.isAnchor, h, Linux.slots]
      · simp [Linux.ttyNames, h, Linux.slots]
    have hsplit : dpre ++ dx :: dpost = dpre ++ ([dx] ++ dpost) := by simp
    rw [hr, hsplit, linux_slots_append, linux_slots_append, linux_slots_append, hx0,
      List.nil_append]

/-- Witness of the amended C8: in `regBroken` the key of `D&0000` does not open, so the
second occurrence is not found although `E&0000` is a live probe; in `sysSkip` the entry
`usb1` has no `modalias` file and is skipped. -/
theorem C8_amended_query_failures_witness :
    Win32.find_bmp regBroken bmpHdr 1 BMP_IF_GDB 64 = some (0, [])
      ∧ Linux.find_bmp sysSkip bmpHdr 1 BMP_IF_GDB 64
        = Linux.find_bmp
            (Linux.withRoot sysSkip
              ([dirE ".", dirE ".."] ++ [lnk "1-1:1.0", lnk "1-2:1.0", lnk "1-3:1.0"]))
            bmpHdr 1 BMP_IF_GDB 64 :=
  C8_amended_query_failures regBroken sysSkip bmpHdr 1 BMP_IF_GDB 64 ["A&0000".toList]
    ["E&0000".toList] "D&0000".toList [dirE ".", dirE ".."]
    [lnk "1-1:1.0", lnk "1-2:1.0", lnk "1-3:1.0"]
    (lnk "usb1") (by decide) (by decide) (by decide) (by decide) (by decide) (by decide)

/-- C5: in both strategies, when the `k`-th probe has its GDB interface but no trace
interface, `find_bmp(k, trace)` returns 0 with an empty output while `find_bmp(k,
BMP_IF_GDB)` still writes the GDB name of the `k`-th probe (cut to the capacity, returning 1
as soon as the capacity holds a character). Registry: the anchor scan finds `(subkey,
basename)` for `k`, and the section key of the trace interface does not open, or the
sibling key does not open, or it has no `DeviceInterfaceGUIDs` value. Sysfs: the `k`-th
occurrence slot is the `tty` entry `t` of the anchor `stem ++ ".0"`, and the sibling
directory has no `modalias` file. The trace interface is any single-digit interface other
than GDB and UART. -/
theorem C5_missing_trace_interface (reg : Win32.Registry) (fs : Linux.SysFs) (hdr : Header)
    (k trace : Int) (namelen : Nat) (subkey basename sibling stem t : CStr)
    (hn : 0 < namelen) (hk : 0 ≤ k)
    (ht0 : 0 ≤ trace) (ht9 : trace ≤ 9) (htg : trace ≠ BMP_IF_GDB)
    (htu : trace ≠ hdr.BMP_IF_UART)
    (hsec : reg.openKey (Win32.regpath hdr BMP_IF_GDB) = true)
    (hanchor : Win32.scanDevices reg (Win32.regpath hdr BMP_IF_GDB) (Win32.probes reg hdr) k
      = some (subkey, basename))
    (hpatch : Win32.patchSubkey subkey trace = some sibling)
    (hnotrace : reg.openKey (Win32.regpath hdr trace) = false
      ∨ reg.openKey (Win32.subPath (Win32.regpath hdr trace) sibling) = false
      ∨ reg.queryValue (Win32.subPath (Win32.regpath hdr trace) sibling) Win32.GUIDS
        = { stat := Win32.LStatus.ERROR_FILE_NOT_FOUND, data := [] })
    (hslot : (Linux.slots fs hdr (Linux.rootEntries fs))[k.toNat]?
      = some (stem ++ [Char.ofNat 46, Char.ofNat 48], t))
    (hnomod : fs.access (Linux.modaliasPath (Linux.siblingName stem trace)) = false) :
    (Win32.find_bmp reg hdr k trace namelen = some (0, [])
      ∧ Win32.find_bmp reg hdr k BMP_IF_GDB namelen
        = some (if 2 ≤ namelen then 1 else 0, copyOut basename namelen))
    ∧ (Linux.find_bmp fs hdr k trace namelen = some (0, [])
      ∧ Linux.find_bmp fs hdr k BMP_IF_GDB namelen
        = some (if 2 ≤ namelen then 1 else 0, copyOut (Linux.dev t) namelen)) := by
  have hn0 : namelen ≠ 0 := by omega
  unfold Win32.probes at hanchor
  refine ⟨⟨?_, ?_⟩, ?_, ?_⟩
  · have hfind : Win32.find_bmp reg hdr k trace namelen
        = Win32.resolveSibling reg hdr subkey trace namelen := by
      unfold Win32.find_bmp
      simp only [hn0, if_false, hsec, Bool.not_true, Bool.false_eq_true, hanchor, htg]
    rw [hfind]
    unfold Win32.resolveSibling
    rcases hnotrace with h | h | h
    · simp [h]
    · by_cases h1 : reg.openKey (Win32.regpath hdr trace) = true
      · simp [h1, hpatch, h]
      · simp [h1]
    · by_cases h1 : reg.openKey (Win32.regpath hdr trace) = true
      · by_cases h2 : reg.openKey (Win32.subPath (Win32.regpath hdr trace) sibling) = true
        · simp [h1, hpatch, h2, htu, h, Win32.finish, copyOut, retOf]
        · simp [h1, hpatch, h2]
      · simp [h1]
  · have hfind : Win32.find_bmp reg hdr k BMP_IF_GDB namelen
        = some (retOf (copyOut basename namelen), copyOut basename namelen) := by
      unfold Win32.find_bmp
      simp only [hn0, if_false, hsec, Bool.not_true, Bool.false_eq_true, hanchor, if_true]
    rw [hfind, retOf_copyOut]
    have hne : basename ≠ [] := by
      rw [scanDevices_eq_slots reg hdr _ k hk] at hanchor
      obtain ⟨sub, _, he, hs⟩ := win_slots_mem reg hdr _ _ (List.getElem?_mem hanchor)
      simp only [Win32.sane, Bool.and_eq_true] at hs
      have hb : basename = Win32.gdbName reg hdr sub := (Prod.mk.inj he).2
      rw [hb]
      exact hasDigit_ne_nil _ hs.2
    simp [hne]
  · rw [linux_find_bmp_eq fs hdr k trace namelen hn hk, hslot]
    simp only [Linux.atSlot]
    split
    · rw [resolveSibling_digit fs hdr stem trace namelen ht0 ht9]
      simp [htu, hnomod, retOf]
    · rename_i hc
      have hl : (Linux.devName t namelen).length = 0 := by
        by_contra hl
        exact hc ⟨by omega, htg⟩
      have hnil : Linux.devName t namelen = [] := List.length_eq_zero.mp hl
      simp [hnil, retOf]
  · rw [linux_find_bmp_eq fs hdr k _ namelen hn hk, hslot]
    simp only [Linux.atSlot, ne_eq, not_true_eq_false, and_false, if_false, Option.map_some']
    rw [devName_eq _ _ hn, retOf_copyOut]
    simp [dev_ne_nil]

/-- Witness of C5, the scenario of the specification: two probes, probe 0 with GDB, UART and
trace, probe 1 with GDB and UART only; `(1, trace)` is not found, `(1, GDB)` is the address
of probe 1 (and `(0, trace)` is the trace identifier of probe 0). -/
theorem C5_missing_trace_interface_witness :
    ((Win32.find_bmp regTwo bmpHdr 1 5 64 = some (0, [])
        ∧ Win32.find_bmp regTwo bmpHdr 1 BMP_IF_GDB 64 = some (1, "COM7".toList))
      ∧ (Linux.find_bmp sysTwo bmpHdr 1 5 64 = some (0, [])
        ∧ Linux.find_bmp sysTwo bmpHdr 1 BMP_IF_GDB 64 = some (1, "/dev/ttyACM2".toList)))
    ∧ Win32.find_bmp regTwo bmpHdr 0 5 64 = some (1, "\x7bCEC5B3F1\x7d".toList)
    ∧ Linux.find_bmp sysTwo bmpHdr 0 5 64 = some (1, "1-1:1.5".toList) :=
  ⟨C5_missing_trace_interface regTwo sysTwo bmpHdr 1 5 64 ("B&0000".toList ++ Win32.DEVPARAMS)
      "COM7".toList ("B&0005".toList ++ Win32.DEVPARAMS) "1-2:1".toList "ttyACM2".toList
      (by decide) (by decide) (by decide) (by decide) (by decide) (by decide) (by decide)
      (by decide) (by decide) (Or.inr (Or.inl (by decide))) (by decide) (by decide),
    by decide, by decide⟩

/-- C6: in both strategies, for every fixture, occurrence `k` and single-digit interface `i`
other than GDB, whenever `find_bmp(k, i)` returns nonzero its result is read at the sibling
of the very probe that `find_bmp(k, BMP_IF_GDB)` resolves. Registry (instance names being
non-empty and free of backslashes): the anchor scan finds the instance `sub` for `k`,
`find_bmp(k, BMP_IF_GDB)` writes its port name, and the result is the `PortName` (UART) or
`DeviceInterfaceGUIDs` (otherwise) value of the `Device Parameters` key, below the section
key of `i`, of the instance named like `sub` with the digit of `i` in its last position.
Sysfs: the `k`-th occurrence slot is the `tty` entry `t` of an anchor `stem ++ ".0"`,
`find_bmp(k, BMP_IF_GDB)` writes `"/dev/" ++ t`, and the result is, for the UART, `"/dev/"`
plus the first qualifying entry of the `tty` directory of `stem ++ "." ++ digit i` and,
otherwise, that directory name itself, whose `modalias` file exists. Results are cut to the
capacity. -/
theorem C6_sibling_of_same_probe (reg : Win32.Registry) (fs : Linux.SysFs) (hdr : Header)
    (k i : Int) (namelen : Nat) (hi0 : 0 ≤ i) (hi9 : i ≤ 9) (hig : i ≠ BMP_IF_GDB) :
    (∀ r name, (∀ sub ∈ Win32.probes reg hdr, sub ≠ [] ∧ BSLASH ∉ sub) →
        Win32.find_bmp reg hdr k i namelen = some (r, name) → r ≠ 0 →
        ∃ sub, Win32.scanDevices reg (Win32.regpath hdr BMP_IF_GDB) (Win32.probes reg hdr) k
              = some (sub ++ Win32.DEVPARAMS, Win32.gdbName reg hdr sub)
          ∧ Win32.find_bmp reg hdr k BMP_IF_GDB namelen
              = some (1, copyOut (Win32.gdbName reg hdr sub) namelen)
          ∧ reg.openKey (Win32.instKey hdr i (Win32.siblingName sub i)) = true
          ∧ name = copyOut (reg.queryValue (Win32.instKey hdr i (Win32.siblingName sub i))
              (if i = hdr.BMP_IF_UART then Win32.PORTNAME else Win32.GUIDS)).data namelen)
    ∧ (∀ r name, Linux.find_bmp fs hdr k i namelen = some (r, name) → r ≠ 0 →
        ∃ stem t, (Linux.slots fs hdr (Linux.rootEntries fs))[k.toNat]?
              = some (stem ++ [Char.ofNat 46, Char.ofNat 48], t)
          ∧ Linux.find_bmp fs hdr k BMP_IF_GDB namelen
              = some (1, copyOut (Linux.dev t) namelen)
          ∧ (i = hdr.BMP_IF_UART →
              ∃ ents u, fs.opendir (Linux.ttyPath (Linux.siblingName stem i)) = some ents
                ∧ (Linux.quals ents).head? = some u
                ∧ name = copyOut (Linux.dev u) namelen)
          ∧ (i ≠ hdr.BMP_IF_UART →
              fs.access (Linux.modaliasPath (Linux.siblingName stem i)) = true
                ∧ name = copyOut (Linux.siblingName stem i) namelen)) := by
  constructor
  · intro r name hnames hfind hr
    have hn : 0 < namelen := by
      by_contra h0
      have : namelen = 0 := by omega
      simp [Win32.find_bmp, this] at hfind
    have hk : 0 ≤ k := by
      by_contra hneg
      rw [win_find_bmp_neg reg hdr k i namelen hn (by omega)] at hfind
      cases hfind
      exact hr rfl
    have hsec : reg.openKey (Win32.regpath hdr BMP_IF_GDB) = true := by
      by_contra hsec
      have hn0 : namelen ≠ 0 := by omega
      simp [Win32.find_bmp, hn0, hsec] at hfind
      exact hr hfind.1.symm
    have hgdb := win_find_bmp_eq reg hdr k BMP_IF_GDB namelen hn hk hsec
    rw [win_find_bmp_eq reg hdr k i namelen hn hk hsec] at hfind
    have hscan := scanDevices_eq_slots reg hdr (reg.enumKey (Win32.regpath hdr BMP_IF_GDB)) k hk
    rcases hg : (Win32.slots reg hdr (reg.enumKey (Win32.regpath hdr BMP_IF_GDB)))[k.toNat]?
      with _ | slot
    · rw [hg] at hfind
      cases hfind
      exact absurd rfl hr
    · rw [hg] at hfind hgdb hscan
      obtain ⟨sub, hmem, hslot, hsane⟩ := win_slots_mem reg hdr _ _ (List.getElem?_mem hg)
      subst hslot
      simp only [hig, if_false] at hfind
      simp only [if_true] at hgdb
      have hp := patchSubkey_digit sub i (hnames sub hmem).1 (hnames sub hmem).2 hi0 hi9
      have hcon := win_resolveSibling_contract reg hdr _ i namelen (r, name) hfind
      have hne : name ≠ [] := hcon.2.1.mp hr
      have hlen : 0 < name.length := List.length_pos.mpr hne
      have h2 : 2 ≤ namelen := by
        have := hcon.1
        simp only at this
        omega
      have hgne : Win32.gdbName reg hdr sub ≠ [] := by
        simp only [Win32.sane, Bool.and_eq_true] at hsane
        exact hasDigit_ne_nil _ hsane.2
      refine ⟨sub, hscan, ?_, ?_⟩
      · rw [hgdb, retOf_copyOut]
        simp [h2, hgne]
      · unfold Win32.resolveSibling at hfind
        rw [hp] at hfind
        simp only [Win32.finish] at hfind
        unfold Win32.instKey
        by_cases h1 : reg.openKey (Win32.regpath hdr i) = true
        · by_cases h3 : reg.openKey (Win32.subPath (Win32.regpath hdr i)
              (Win32.siblingName sub i ++ Win32.DEVPARAMS)) = true
          · refine ⟨h3, ?_⟩
            simp only [h1, h3, Bool.not_true, Bool.false_eq_true, if_false] at hfind
            by_cases hu : i = hdr.BMP_IF_UART
            · simp only [hu, if_true] at hfind ⊢
              split at hfind
              · cases hfind; exact absurd rfl hr
              · cases hfind; rfl
            · simp only [hu, if_false] at hfind ⊢
              split at hfind
              · cases hfind; exact absurd rfl hr
              · cases hfind; rfl
          · simp only [h1, h3, Bool.not_true, Bool.false_eq_true, if_false, Bool.not_false,
              if_true] at hfind
            cases hfind; exact absurd rfl hr
        · simp only [h1, Bool.not_false, if_true] at hfind
          cases hfind; exact absurd rfl hr
  · intro r name hfind hr
    have hn : 0 < namelen := by
      by_contra h0
      have : namelen = 0 := by omega
      simp [Linux.find_bmp, this] at hfind
    have hk : 0 ≤ k := by
      by_contra hneg
      rw [linux_find_bmp_neg fs hdr k i namelen hn (by omega)] at hfind
      cases hfind
      exact hr rfl
    have hgdb := linux_find_bmp_eq fs hdr k BMP_IF_GDB namelen hn hk
    rw [linux_find_bmp_eq fs hdr k i namelen hn hk] at hfind
    rcases hg : (Linux.slots fs hdr (Linux.rootEntries fs))[k.toNat]? with _ | ⟨d, t⟩
    · rw [hg] at hfind
      cases hfind
      exact absurd rfl hr
    · rw [hg] at hfind hgdb
      simp only [Linux.atSlot, ne_eq, not_true_eq_false, and_false, if_false,
        Option.map_some'] at hgdb
      simp only [Linux.atSlot] at hfind
      rcases hres : (if (Linux.devName t namelen).length > 0 ∧ i ≠ BMP_IF_GDB then
          Linux.resolveSibling fs hdr (Linux.ttyPath d) i namelen
        else some (Linux.devName t namelen)) with _ | nm
      · rw [hres] at hfind
        exact Option.noConfusion hfind
      · rw [hres] at hfind
        simp only [Option.map_some', Option.some.injEq, Prod.mk.injEq] at hfind
        obtain ⟨hr1, hnm⟩ := hfind
        subst hnm
        have hne : nm ≠ [] := (retOf_ne_zero nm).mp (by rw [hr1]; exact hr)
        by_cases hc : (Linux.devName t namelen).length > 0 ∧ i ≠ BMP_IF_GDB
        · rw [if_pos hc] at hres
          obtain ⟨stem, hd⟩ := resolveSibling_some fs hdr d i namelen nm hres
          subst hd
          rw [resolveSibling_digit fs hdr stem i namelen hi0 hi9] at hres
          have h2 : 2 ≤ namelen := by
            have h1 := devName_length t namelen hn
            omega
          refine ⟨stem, t, rfl, ?_, ?_, ?_⟩
          · rw [hgdb, devName_eq _ _ hn, retOf_copyOut]
            simp [h2, dev_ne_nil]
          · intro hu
            rw [if_pos hu] at hres
            rcases ho : fs.opendir (Linux.ttyPath (Linux.siblingName stem i)) with _ | ents
            · rw [ho] at hres
              cases hres
              exact absurd rfl hne
            · rw [ho] at hres
              simp only [Option.some.injEq] at hres
              rw [scanUart_eq] at hres
              rcases hh : (Linux.quals ents).head? with _ | u
              · rw [hh] at hres
                exact absurd hres.symm hne
              · rw [hh] at hres
                refine ⟨ents, u, rfl, hh, ?_⟩
                rw [← hres]
                exact devName_eq _ _ hn
          · intro hu
            rw [if_neg hu] at hres
            by_cases hacc : fs.access (Linux.modaliasPath (Linux.siblingName stem i)) = true
            · rw [if_pos hacc] at hres
              refine ⟨hacc, ?_⟩
              cases hres
              rfl
            · rw [if_neg hacc] at hres
              cases hres
              exact absurd rfl hne
        · rw [if_neg hc] at hres
          cases hres
          exfalso
          apply hc
          exact ⟨List.length_pos.mpr hne, hig⟩

/-- Witness of C6: the UART of the second probe of `regTwo` and of `sysTwo`, and the trace
interface of the first probe of `sysTwo`. -/
theorem C6_sibling_of_same_probe_witness :
    (∃ sub, Win32.scanDevices regTwo (Win32.regpath bmpHdr BMP_IF_GDB)
          (Win32.probes regTwo bmpHdr) 1
            = some (sub ++ Win32.DEVPARAMS, Win32.gdbName regTwo bmpHdr sub)
        ∧ Win32.find_bmp regTwo bmpHdr 1 BMP_IF_GDB 64
            = some (1, copyOut (Win32.gdbName regTwo bmpHdr sub) 64)
        ∧ regTwo.openKey (Win32.instKey bmpHdr 2 (Win32.siblingName sub 2)) = true
        ∧ "COM8".toList = copyOut (regTwo.queryValue
            (Win32.instKey bmpHdr 2 (Win32.siblingName sub 2))
            (if (2 : Int) = bmpHdr.BMP_IF_UART then Win32.PORTNAME else Win32.GUIDS)).data 64)
    ∧ (∃ stem t, (Linux.slots sysTwo bmpHdr (Linux.rootEntries sysTwo))[(1 : Int).toNat]?
            = some (stem ++ [Char.ofNat 46, Char.ofNat 48], t)
        ∧ Linux.find_bmp sysTwo bmpHdr 1 BMP_IF_GDB 64 = some (1, copyOut (Linux.dev t) 64)
        ∧ ((2 : Int) = bmpHdr.BMP_IF_UART →
            ∃ ents u, sysTwo.opendir (Linux.ttyPath (Linux.siblingName stem 2)) = some ents
              ∧ (Linux.quals ents).head? = some u
              ∧ "/dev/ttyACM3".toList = copyOut (Linux.dev u) 64)
        ∧ ((2 : Int) ≠ bmpHdr.BMP_IF_UART →
            sysTwo.access (Linux.modaliasPath (Linux.siblingName stem 2)) = true
              ∧ "/dev/ttyACM3".toList = copyOut (Linux.siblingName stem 2) 64)) :=
  ⟨(C6_sibling_of_same_probe regTwo sysTwo bmpHdr 1 2 64 (by decide) (by decide)
      (by decide)).1 1 "COM8".toList (by decide) (by decide) (by decide),
    (C6_sibling_of_same_probe regTwo sysTwo bmpHdr 1 2 64 (by decide) (by decide)
      (by decide)).2 1 "/dev/ttyACM3".toList (by decide) (by decide)⟩

end BmpScan
